import Mathlib
set_option linter.unusedSectionVars false
set_option linter.unreachableTactic false
set_option linter.unusedTactic false

namespace SelfObserver

/-!
Shallow embedding of the SelfObserver behavioral core
(`behavior_model.py`, `behavior_digital_twin.py`,
`time_series_forecasting.py`) and proofs about it.

Python dictionaries and `collections.Counter` objects are modelled as
association lists kept in insertion order (a new key is appended at the
end, matching CPython dict semantics); Python float arithmetic is
modelled over `ℚ`.
-/
/-- Association-list model of a Python `Counter`/`dict` with `ℚ` values,
in insertion order. -/
abbrev CList (K : Type) := List (K × ℚ)

namespace CList

variable {K : Type} [DecidableEq K]

/-- `d[k] += v` on a Python dict/Counter: bump the existing entry in
place, or append the new key at the end (CPython insertion order). -/
def add : CList K → K → ℚ → CList K
  | [], k, v => [(k, v)]
  | (k', v') :: t, k, v =>
      if k = k' then (k', v' + v) :: t else (k', v') :: add t k v

/-- `d.get(k, 0)`: value of the first entry with key `k`, else `0`. -/
def get : CList K → K → ℚ
  | [], _ => 0
  | (k', v') :: t, k => if k = k' then v' else get t k

/-- The keys of the dict, in insertion order. -/
def keysOf (d : CList K) : List K := d.map Prod.fst

/-- `sum(d.values())`. -/
def total (d : CList K) : ℚ := (d.map Prod.snd).sum

/-- `{k: v / T for k, v in d.items()}`. -/
def divAll (d : CList K) (T : ℚ) : CList K := d.map fun p => (p.1, p.2 / T)

/-- All stored values are strictly positive. -/
def AllPos (d : CList K) : Prop := ∀ p ∈ d, (0 : ℚ) < p.2

/-- `max(d, key=d.get)` starting from a current best pair: Python's
`max` keeps the first maximal element, replacing the current best only
on a strictly greater value. -/
def best : K × ℚ → CList K → K × ℚ
  | b, [] => b
  | b, p :: t => if p.2 > b.2 then best p t else best b t

/-- `max(d, key=d.get)` on a dict in iteration order (`none` on empty). -/
def argmax? : CList K → Option (K × ℚ)
  | [] => none
  | p :: t => some (best p t)

end CList

/-- Nested counter: `defaultdict(Counter)`. -/
abbrev C2List (K1 K2 : Type) := List (K1 × CList K2)

namespace C2List

variable {K1 K2 : Type} [DecidableEq K1] [DecidableEq K2]

/-- `d[k1][k2] += v` on a `defaultdict(Counter)`. -/
def add2 : C2List K1 K2 → K1 → K2 → ℚ → C2List K1 K2
  | [], k1, k2, v => [(k1, [(k2, v)])]
  | (k, row) :: t, k1, k2, v =>
      if k1 = k then (k, CList.add row k2 v) :: t
      else (k, row) :: add2 t k1 k2 v

/-- `d[k1]` with the defaultdict default: an empty counter. -/
def get2 : C2List K1 K2 → K1 → CList K2
  | [], _ => []
  | (k, row) :: t, k1 => if k1 = k then row else get2 t k1

end C2List

namespace Sha256

/-! ## SHA-256 (model of Python's `hashlib.sha256`)

`behavior_model._hash` feeds UTF-8 bytes of `f"{segment}:{token}"` to
SHA-256 and keeps the first four digest bytes.  The hash itself lives in
CPython's standard library; it is embedded here from the FIPS 180-4
algorithm over `Nat` with explicit reduction `% 2^32`. -/
/-- Truncate to a 32-bit word. -/
def w32 (n : Nat) : Nat := n % 4294967296

/-- 32-bit rotate right. -/
def rotr (n x : Nat) : Nat := w32 ((x >>> n) ||| (x <<< (32 - n)))

/-- The 64 round constants. -/
def K : List Nat :=
  [1116352408, 1899447441, 3049323471, 3921009573, 961987163, 1508970993,
   2453635748, 2870763221, 3624381080, 310598401, 607225278, 1426881987,
   1925078388, 2162078206, 2614888103, 3248222580, 3835390401, 4022224774,
   264347078, 604807628, 770255983, 1249150122, 1555081692, 1996064986,
   2554220882, 2821834349, 2952996808, 3210313671, 3336571891, 3584528711,
   113926993, 338241895, 666307205, 773529912, 1294757372, 1396182291,
   1695183700, 1986661051, 2177026350, 2456956037, 2730485921, 2820302411,
   3259730800, 3345764771, 3516065817, 3600352804, 4094571909, 275423344,
   430227734, 506948616, 659060556, 883997877, 958139571, 1322822218,
   1537002063, 1747873779, 1955562222, 2024104815, 2227730452, 2361852424,
   2428436474, 2756734187, 3204031479, 3329325298]

/-- The initial hash state. -/
def H0 : List Nat :=
  [1779033703, 3144134277, 1013904242, 2773480762,
   1359893119, 2600822924, 528734635, 1541459225]

/-- Big-endian byte decomposition of `n` into `len` bytes. -/
def toBytesBE (len n : Nat) : List Nat :=
  (List.range len).map fun i => (n >>> (8 * (len - 1 - i))) % 256

/-- Append the `0x80` marker, zero padding and the 64-bit bit length. -/
def pad (m : List Nat) : List Nat :=
  let L := m.length
  let z := (120 - ((L + 1) % 64)) % 64
  m ++ [128] ++ List.replicate z 0 ++ toBytesBE 8 (8 * L)

/-- Group bytes into big-endian 32-bit words. -/
def toWords : List Nat → List Nat
  | b0 :: b1 :: b2 :: b3 :: rest =>
      (((b0 * 256 + b1) * 256 + b2) * 256 + b3) :: toWords rest
  | _ => []

/-- Split a word list into 16-word blocks. -/
def chunkify : List Nat → List (List Nat)
  | [] => []
  | w :: ws => ((w :: ws).take 16) :: chunkify ((w :: ws).drop 16)
  termination_by l => l.length
  decreasing_by simp; omega

/-- One message-schedule extension step. -/
def scheduleStep (w : List Nat) : List Nat :=
  let n := w.length
  let g : Nat → Nat := fun i => w.getD i 0
  let s0 := rotr 7 (g (n - 15)) ^^^ rotr 18 (g (n - 15)) ^^^ (g (n - 15) >>> 3)
  let s1 := rotr 17 (g (n - 2)) ^^^ rotr 19 (g (n - 2)) ^^^ (g (n - 2) >>> 10)
  w ++ [w32 (g (n - 16) + s0 + g (n - 7) + s1)]

/-- Extend 16 words to the 64-word schedule. -/
def schedule (w : List Nat) : List Nat :=
  (List.range 48).foldl (fun acc _ => scheduleStep acc) w

/-- One compression round on state `[a,b,c,d,e,f,g,h]`. -/
def round1 (st : List Nat) (kw : Nat) : List Nat :=
  match st with
  | [a, b, c, d, e, f, g, h] =>
      let S1 := rotr 6 e ^^^ rotr 11 e ^^^ rotr 25 e
      let ch := (e &&& f) ^^^ ((e ^^^ 4294967295) &&& g)
      let temp1 := w32 (h + S1 + ch + kw)
      let S0 := rotr 2 a ^^^ rotr 13 a ^^^ rotr 22 a
      let maj := (a &&& b) ^^^ (a &&& c) ^^^ (b &&& c)
      let temp2 := w32 (S0 + maj)
      [w32 (temp1 + temp2), a, b, c, w32 (d + temp1), e, f, g]
  | _ => st

/-- Compress one 16-word chunk into the running hash state. -/
def processChunk (H : List Nat) (chunk : List Nat) : List Nat :=
  let w := schedule chunk
  let kw := (K.zip w).map fun p => w32 (p.1 + p.2)
  let st := kw.foldl round1 H
  (H.zip st).map fun p => w32 (p.1 + p.2)

/-- SHA-256 digest (32 bytes) of a byte string. -/
def digest (msg : List Nat) : List Nat :=
  let Hf := (chunkify (toWords (pad msg))).foldl processChunk H0
  (Hf.map (toBytesBE 4)).flatten

end Sha256

/-- UTF-8 bytes of a string (CPython `str.encode("utf-8")`). -/
def strBytes (s : String) : List Nat := s.toUTF8.toList.map fun b => b.toNat

/-- Big-endian integer value of a byte list (`int.from_bytes(b, "big")`). -/
def bytesToNatBE (l : List Nat) : Nat := l.foldl (fun a b => a * 256 + b) 0

namespace behavior_model

/-! ## `behavior_model.py` -/
def SEGMENT_SIZE : Nat := 128

/-- The `SEGMENTS` dict, as a lookup function on its six keys. -/
def SEGMENTS : String → Nat
  | "intention" => 0
  | "context" => 1
  | "cognitive" => 2
  | "emotional" => 3
  | "dopamine_goal" => 4
  | "app_semantics" => 5
  | _ => 0

def EMBEDDING_SIZE : Nat := SEGMENT_SIZE * 6

def DOPAMINE_CUES : List String :=
  ["tiktok", "youtube", "bilibili", "netflix", "game", "gaming", "steam",
   "browsing", "scroll", "feed", "reddit", "twitter", "instagram", "video",
   "shorts", "discord", "chat", "ai_chat"]

def GOAL_CUES : List String :=
  ["code", "coding", "ide", "vscode", "work", "project", "write", "obsidian",
   "notion", "note", "research", "paper", "doc", "ppt", "excel", "analysis",
   "debug", "terminal", "reading"]

def COGNITIVE_HEAVY : List String :=
  ["debug", "compile", "analysis", "write", "research", "solve", "problem",
   "refactor", "review", "deploy", "ide", "editor", "terminal", "math",
   "design", "architecture"]

def EMOTIONAL_POS : List String :=
  ["win", "completed", "success", "achieved", "great", "good", "yay", "love"]

def EMOTIONAL_NEG : List String :=
  ["fail", "error", "lost", "died", "crash", "stuck", "boring", "bad",
   "angry", "sad"]

/-- `_hash`: first four SHA-256 digest bytes of `f"{segment}:{token}"`,
as a big-endian integer reduced mod the segment width. -/
def _hash (token : String) (segment : Nat) : Nat :=
  bytesToNatBE ((Sha256.digest (strBytes (toString segment ++ ":" ++ token))).take 4)
    % SEGMENT_SIZE

/-- `_add_token`: accumulate `weight` at the hashed index inside the
segment's offset. -/
def _add_token (vec : List ℚ) (segment : Nat) (token : String) (weight : ℚ) :
    List ℚ :=
  let idx := segment * SEGMENT_SIZE + _hash token segment
  vec.set idx (vec.getD idx 0 + weight)

/-- Python `str.split()` with no separator: split into maximal runs of
non-whitespace characters (no empty pieces), over the character list
with an accumulator for the current run. -/
def splitWs : List Char → List Char → List (List Char)
  | [], cur => if cur = [] then [] else [cur.reverse]
  | c :: rest, cur =>
      if c.isWhitespace then
        if cur = [] then splitWs rest [] else cur.reverse :: splitWs rest []
      else splitWs rest (c :: cur)

/-- `_tokenize`: map path separators and underscores to spaces, split on
whitespace, lower-case each piece, drop empties. -/
def _tokenize (text : String) : List String :=
  (splitWs (text.data.map fun c =>
      if c = '/' ∨ c = '\\' ∨ c = '_' then ' ' else c) []).foldr
    (fun raw acc =>
      let tok := String.mk (raw.map Char.toLower)
      if tok ≠ "" then tok :: acc else acc)
    []

/-- A datetime value: the fields of `datetime` this core reads.
`epochSeconds` models subtraction of two datetimes. -/
structure DT where
  hour : Nat
  minute : Nat
  epochSeconds : ℚ
deriving DecidableEq, Repr, Inhabited

/-- The `"ts"` field of a raw log-entry dict: a `datetime`, an ISO string,
or something else entirely (e.g. a missing key read back as `None`). -/
inductive PyTs where
  | dt (d : DT)
  | str (s : String)
  | other
deriving DecidableEq, Repr

/-- One activity observation (a raw log-entry dict).  Text fields model
`entry.get(key) or ""`: `none` stands for an absent or `None` value. -/
structure Activity where
  title : Option String
  exe : Option String
  url : Option String
  uia_labels : List String
  mode : Option String
  ts : PyTs
  embedding : Option (List ℚ)
  confidence : ℚ
deriving DecidableEq, Repr

/-- The `Signals` record returned by `derive_signals`. -/
structure Signals where
  tokens : List String
  dopamine_score : ℚ
  goal_score : ℚ
  cognitive_load : ℚ
  emotional_tone : ℚ
  mode : String
  exe : String
deriving DecidableEq, Repr

/-- `derive_signals`: interpretable signals from an observation's text
fields. -/
def derive_signals (activity : Activity) : Signals :=
  let title := activity.title.getD ""
  let exe := activity.exe.getD ""
  let url := activity.url.getD ""
  let uia := if activity.uia_labels ≠ [] then
      String.intercalate " " activity.uia_labels else ""
  let mode := activity.mode.getD ""
  let text_blob := title ++ " " ++ exe ++ " " ++ url ++ " " ++ uia ++ " " ++ mode
  let tokens := _tokenize text_blob
  let dopamine_hits := (tokens.filter (· ∈ DOPAMINE_CUES)).length
  let goal_hits := (tokens.filter (· ∈ GOAL_CUES)).length
  let cog_hits := (tokens.filter (· ∈ COGNITIVE_HEAVY)).length
  let pos_hits := (tokens.filter (· ∈ EMOTIONAL_POS)).length
  let neg_hits := (tokens.filter (· ∈ EMOTIONAL_NEG)).length
  { tokens := tokens
    dopamine_score := (dopamine_hits : ℚ) / (max 1 tokens.length : ℚ)
    goal_score := (goal_hits : ℚ) / (max 1 tokens.length : ℚ)
    cognitive_load := min 1 (1/5 + (cog_hits : ℚ) * (3/20))
    emotional_tone := max 0 (min 1 (1/2 + ((pos_hits : ℚ) - (neg_hits : ℚ)) * (1/20)))
    mode := mode.toLower
    exe := exe.toLower }

/-- `build_embedding`, modelled up to final normalization: the result is
the accumulated raw vector over `ℚ` together with its squared Euclidean
norm, plus the signals.  The Python function's last step divides every
entry by `sqrt(normSq)` (or by `1.0` when the norm is zero); that step is
a fixed elementwise function of the `(vector, normSq)` pair returned
here, so two equal results here give bit-identical normalized embeddings
in the original. -/
def build_embedding (activity : Activity) : (List ℚ × ℚ) × Signals :=
  let signals := derive_signals activity
  let vec0 : List ℚ := List.replicate EMBEDDING_SIZE 0
  let vec1 := signals.tokens.foldl
    (fun v tok =>
      let v := _add_token v (SEGMENTS "intention") tok (4/5)
      let v := if tok.startsWith "http" then
          _add_token v (SEGMENTS "context") tok (3/5) else v
      _add_token v (SEGMENTS "app_semantics") tok (1/2))
    vec0
  let vec2 := if signals.exe ≠ "" then
      _add_token vec1 (SEGMENTS "app_semantics") signals.exe 1 else vec1
  let vec3 := if activity.uia_labels ≠ [] then
      activity.uia_labels.foldl
        (fun v label => _add_token v (SEGMENTS "context") label.toLower (3/5))
        vec2
    else vec2
  let cognitive_weight := 1 + signals.cognitive_load
  let vec4 := signals.tokens.foldl
    (fun v tok => if tok ∈ COGNITIVE_HEAVY then
        _add_token v (SEGMENTS "cognitive") tok cognitive_weight else v)
    vec3
  let vec5 := _add_token vec4 (SEGMENTS "emotional") "positive" signals.emotional_tone
  let vec6 := _add_token vec5 (SEGMENTS "emotional") "negative" (1 - signals.emotional_tone)
  let vec7 := _add_token vec6 (SEGMENTS "dopamine_goal") "dopamine" signals.dopamine_score
  let vec8 := _add_token vec7 (SEGMENTS "dopamine_goal") "goal" signals.goal_score
  let vec9 := if signals.mode ≠ "" then
      _add_token vec8 (SEGMENTS "intention") ("mode:" ++ signals.mode) (9/10)
    else vec8
  ((vec9, (vec9.map fun x => x * x).sum), signals)

/-- The text fields of an observation: exactly what `derive_signals`
and `build_embedding` read. -/
def textFields (a : Activity) :
    Option String × Option String × Option String × List String × Option String :=
  (a.title, a.exe, a.url, a.uia_labels, a.mode)

/-- `sum((a - b) ** 2 for a, b in zip(vec, c))`. -/
def sqdist (v c : List ℚ) : ℚ := ((v.zip c).map fun p => (p.1 - p.2) ^ 2).sum

/-- `min(dists)` on a list (Python `min`; `0` only for the empty list,
which Python would reject). -/
def listMin : List ℚ → ℚ
  | [] => 0
  | x :: t => t.foldl min x

/-- `dists.index(min(dists))`: index of the first minimum. -/
def minIndex (l : List ℚ) : Nat := l.indexOf (listMin l)

/-- The terminal two-centroid fallback of `cluster_embeddings`: seed
centroids are the first two points, each point goes to the nearer
centroid by squared Euclidean distance (first index on ties). -/
def simple_kmeans_labels (embeddings : List (List ℚ)) : List ℤ :=
  let centroids := embeddings.take 2
  embeddings.map fun vec => (minIndex (centroids.map fun c => sqdist vec c) : ℤ)

/-- A clustering result: one label per embedding plus the algorithm name. -/
structure ClusterResult where
  labels : List ℤ
  algorithm : String
deriving DecidableEq, Repr

/-- `cluster_embeddings`.  The three optional backends (`hdbscan`,
`sklearn` DBSCAN, `sklearn` KMeans) are modelled as oracle inputs:
`none` means the library is unavailable or its call raised, `some ls`
a successful fit returning labels `ls`.  `int(len(e) ** 0.5)` is
modelled as `Nat.sqrt`. -/
def cluster_embeddings (hdbscanRes dbscanRes kmeansRes : Option (List ℤ))
    (embeddings : List (List ℚ)) : ClusterResult :=
  if embeddings = [] then ⟨[], "none"⟩
  else
    match hdbscanRes with
    | some labels => ⟨labels, "hdbscan"⟩
    | none =>
      match dbscanRes with
      | some labels => ⟨labels, "dbscan"⟩
      | none =>
        match kmeansRes with
        | some labels =>
            ⟨labels, "kmeans_" ++ toString (min 6 (max 2 (Nat.sqrt embeddings.length)))⟩
        | none => ⟨simple_kmeans_labels embeddings, "simple_kmeans"⟩

end behavior_model

namespace C2List

variable {K1 K2 : Type} [DecidableEq K1] [DecidableEq K2]

/-- Shared well-formedness of the nested counters this core builds:
every key satisfies `P`, every row is non-empty with positive values,
inner keys satisfy `Q`, and inner keys are distinct. -/
def RowsOk (P : K1 → Prop) (Q : K2 → Prop) (d : C2List K1 K2) : Prop :=
  ∀ p ∈ d, P p.1 ∧ p.2 ≠ [] ∧ CList.AllPos p.2 ∧ (∀ q ∈ p.2, Q q.1)
    ∧ (CList.keysOf p.2).Nodup

end C2List

namespace behavior_digital_twin

open behavior_model

/-! ## `behavior_digital_twin.py` -/
/-- `_productivity_score` of `behavior_digital_twin.py`. -/
def _productivity_score (signal : Signals) : ℚ :=
  max 0 (min 1 (signal.goal_score + (1/2) * signal.cognitive_load
    - (2/5) * signal.dopamine_score))

/-- One prepared feature row: the fields of `_prepare_features` output
that the transition/forecast/stress code reads. -/
structure Feature where
  ts : DT
  cluster : ℤ
  productivity : ℚ
  dopamine_score : ℚ
  goal_score : ℚ
deriving DecidableEq, Repr, Inhabited

/-- `_transition_matrix`: count consecutive label pairs, skipping any
pair touching the noise label `-1`, then row-normalize.  Returns
`(matrix, transitions)` like the source. -/
def _transition_matrix (labels : List ℤ) : C2List ℤ ℤ × C2List ℤ ℤ :=
  let transitions := (labels.zip labels.tail).foldl
    (fun tr ab => if ab.1 = -1 ∨ ab.2 = -1 then tr else C2List.add2 tr ab.1 ab.2 1)
    []
  let matrix := transitions.map fun p =>
    let total := CList.total p.2
    (p.1, CList.divAll p.2 (if total = 0 then 1 else total))
  (matrix, transitions)

/-- `_hourly_cluster_distribution`: cluster counts per hour of day
(note: the cluster may be the noise label `-1`). -/
def _hourly_cluster_distribution (features : List Feature) : C2List Nat ℤ :=
  features.foldl (fun by_hour f => C2List.add2 by_hour f.ts.hour f.cluster 1) []

/-- Candidate next states of the short-term forecast: cluster ids plus
the two synthetic pseudo-states. -/
inductive SKey where
  | cluster (c : ℤ)
  | dopamine_prone
  | goal_prone
deriving DecidableEq, Repr

/-- Result of `_short_term_forecast`. -/
structure STForecast where
  predicted_cluster : Option SKey
  distribution : CList SKey
  algorithm : String
deriving DecidableEq, Repr

/-- The "Markov transition from last cluster" step of
`_short_term_forecast`. -/
def st_markov (matrix : C2List ℤ ℤ) (last_cluster : ℤ) (dist : CList SKey) :
    CList SKey :=
  if last_cluster ∈ matrix.map Prod.fst then
    (C2List.get2 matrix last_cluster).foldl
      (fun d p => CList.add d (SKey.cluster p.1) p.2) dist
  else dist

/-- The "blend in hour-of-day prior" step of `_short_term_forecast`. -/
def st_hour_blend (hour_prior : CList ℤ) (dist : CList SKey) : CList SKey :=
  hour_prior.foldl (fun d p => CList.add d (SKey.cluster p.1) ((7/20) * p.2)) dist

/-- The "light recency prior on dopamine/goal" step of
`_short_term_forecast`. -/
def st_bias (last : Feature) (dist : CList SKey) : CList SKey :=
  let dopamine_bias := last.dopamine_score - last.goal_score
  if dopamine_bias > 1/4 then
    CList.add dist SKey.dopamine_prone dopamine_bias
  else if dopamine_bias < -(3/20) then
    CList.add dist SKey.goal_prone (-dopamine_bias)
  else dist

/-- `_short_term_forecast`, with its three comment-labelled accumulation
steps factored into the named helpers above. -/
def _short_term_forecast (features : List Feature) (matrix : C2List ℤ ℤ)
    (hourly_distribution : C2List Nat ℤ) : STForecast :=
  match features.getLast? with
  | none => ⟨none, [], "none"⟩
  | some last =>
    let last_cluster := last.cluster
    let dist := st_bias last
      (st_hour_blend (C2List.get2 hourly_distribution last.ts.hour)
        (st_markov matrix last_cluster []))
    let dist := if dist = [] then CList.add dist (SKey.cluster last_cluster) 1 else dist
    let total0 := CList.total dist
    let total := if total0 = 0 then 1 else total0
    let normalized := CList.divAll dist total
    ⟨(CList.argmax? normalized).map Prod.fst, normalized, "markov+context"⟩

/-- The number of consecutive label pairs whose labels differ — a
literal "mode/cluster switch count", as the claim's words read.  Used to
compare the code's stress rate against the claimed one. -/
def switch_count (labels : List ℤ) : Nat :=
  (labels.zip labels.tail).countP fun p => decide (p.1 ≠ p.2)

/-- Python `round(x, 3)` (round half to even) over `ℚ`; the floor is
spelled with `Int.fdiv` so that it evaluates by kernel reduction. -/
def pyRound3 (x : ℚ) : ℚ :=
  let y := 1000 * x
  let fl : ℤ := y.num.fdiv y.den
  let frac := y - fl
  let r := if frac < 1/2 then fl
    else if frac > 1/2 then fl + 1
    else if fl % 2 = 0 then fl else fl + 1
  (r : ℚ) / 1000

/-- Result of `_stress_signals`. -/
structure StressResult where
  switch_rate : ℚ
  estimate : String
deriving DecidableEq, Repr

/-- The raw rate of `_stress_signals`: total recorded transition count
divided by elapsed minutes (`or 1.0` on a zero-length interval). -/
def stress_rate (features : List Feature) (transitions : C2List ℤ ℤ) : ℚ :=
  let tm0 := ((features.getLastD default).ts.epochSeconds
    - (features.headD default).ts.epochSeconds) / 60
  let total_minutes := if tm0 = 0 then 1 else tm0
  (transitions.map fun p => CList.total p.2).sum / total_minutes

/-- `_stress_signals`: the rate above, rounded for reporting and banded
at 0.4 and 0.8. -/
def _stress_signals (features : List Feature) (transitions : C2List ℤ ℤ) :
    StressResult :=
  if features = [] then ⟨0, "niedrig"⟩
  else
    ⟨pyRound3 (stress_rate features transitions),
      if stress_rate features transitions > 4/5 then "hoch"
      else if stress_rate features transitions > 2/5 then "mittel"
      else "niedrig"⟩

/-- `{sum, count}` bucket of the persisted hourly productivity table. -/
structure HourBucket where
  sum : ℚ
  count : Nat
deriving DecidableEq, Repr

/-- The persisted twin state (`logs/digital_twin_state.json`). -/
structure TwinState where
  events : Nat
  hourly_productivity : List (String × HourBucket)
  last_mode : Option String
  mode_transitions : List (String × Nat)
deriving DecidableEq, Repr

/-- The reset state used when the state file is missing or unreadable
(the absent `mode_transitions` key reads back as an empty table). -/
def defaultTwinState : TwinState := ⟨0, [], none, []⟩

/-- `hp[hour_key] = {"sum": 0.0, "count": 0}` if absent, then
`+= prod` / `+= 1`. -/
def hpUpdate (l : List (String × HourBucket)) (k : String) (prod : ℚ) :
    List (String × HourBucket) :=
  match l with
  | [] => [(k, ⟨prod, 1⟩)]
  | (k', b) :: t =>
      if k = k' then (k', ⟨b.sum + prod, b.count + 1⟩) :: t
      else (k', b) :: hpUpdate t k prod

/-- `transitions[key] = transitions.get(key, 0) + 1`. -/
def bumpTransition (l : List (String × Nat)) (k : String) : List (String × Nat) :=
  match l with
  | [] => [(k, 1)]
  | (k', n) :: t =>
      if k = k' then (k', n + 1) :: t else (k', n) :: bumpTransition t k

/-- `update_state_with_entry`.  The fallible externals are oracle inputs:
`readState` models `json.load(open(state_path))` (`.error` = any read or
parse failure), `parseIso` models `datetime.fromisoformat`, `now` models
`datetime.now()`, and `writeOk` tells whether the final `json.dump`
succeeds.  The returned flag says whether the new state reached disk; a
`ts` of an unsupported type (`PyTs.other`, e.g. a missing key) is the one
uncaught failure (`ts.hour` raises), modelled by `Except.error`. -/
def update_state_with_entry (readState : Except Unit TwinState)
    (parseIso : String → Except Unit DT) (now : DT) (writeOk : Bool)
    (entry : Activity) : Except Unit (TwinState × Bool) := do
  let state := match readState with
    | .ok s => s
    | .error _ => defaultTwinState
  let ts : DT ← match entry.ts with
    | .dt d => pure d
    | .str s => pure (match parseIso s with | .ok d => d | .error _ => now)
    | .other => throw ()
  let signals := derive_signals entry
  let prod := _productivity_score signals
  let hour_key := toString ts.hour
  let hp := hpUpdate state.hourly_productivity hour_key prod
  -- `if last_mode:` is Python truthiness: `None` and `""` both skip
  let last_mode := state.last_mode.getD ""
  let cur_mode := entry.mode.getD "unknown"
  let transitions := if last_mode ≠ "" then
      bumpTransition state.mode_transitions (last_mode ++ "->" ++ cur_mode)
    else state.mode_transitions
  pure ({ events := state.events + 1
          hourly_productivity := hp
          last_mode := some cur_mode
          mode_transitions := transitions }, writeOk)

end behavior_digital_twin

namespace time_series_forecasting

open behavior_model behavior_digital_twin

/-! ## `time_series_forecasting.py` -/
/-- `_productivity_score` of `time_series_forecasting.py` (a verbatim
twin of the one in `behavior_digital_twin.py`). -/
def _productivity_score (signal : Signals) : ℚ :=
  max 0 (min 1 (signal.goal_score + (1/2) * signal.cognitive_load
    - (2/5) * signal.dopamine_score))

/-- Result of `_rolling_probability_baseline` / `forecast_next_hour`. -/
structure Forecast where
  distribution : CList ℤ
  predicted_cluster : Option ℤ
  productivity : ℚ
  distraction : ℚ
  algorithm : String
deriving DecidableEq, Repr

/-- The "conditional probability from last cluster" step of
`_rolling_probability_baseline`. -/
def bl_cond (transitions : CList (ℤ × ℤ)) (last : ℤ) (dist : CList ℤ) :
    CList ℤ :=
  transitions.foldl
    (fun d p => if p.1.1 = last then CList.add d p.1.2 p.2 else d) dist

/-- The "overall prior" step of `_rolling_probability_baseline`
(`distribution[cluster_id] += 0.25 * c`). -/
def bl_overall (counts : CList ℤ) (dist : CList ℤ) : CList ℤ :=
  counts.foldl (fun d p => CList.add d p.1 ((1/4) * p.2)) dist

/-- The "hour-of-day prior" step of `_rolling_probability_baseline`
(`distribution[cluster_id] += 0.5 * c`). -/
def bl_hour (hour_counts : CList ℤ) (dist : CList ℤ) : CList ℤ :=
  hour_counts.foldl (fun d p => CList.add d p.1 ((1/2) * p.2)) dist

/-- `_rolling_probability_baseline`, with its comment-labelled
accumulation steps factored into the named helpers above.  The Python
single pass over consecutive feature pairs fills three counters; they
are built here by three structurally identical folds over the same pair
list. -/
def _rolling_probability_baseline (features : List Feature) : Forecast :=
  match features.getLast? with
  | none => ⟨[], none, 0, 0, "baseline"⟩
  | some lastF =>
    let last := lastF.cluster
    let pairs := features.zip features.tail
    let transitions : CList (ℤ × ℤ) :=
      pairs.foldl (fun c p => CList.add c (p.1.cluster, p.2.cluster) 1) []
    let counts : CList ℤ :=
      pairs.foldl (fun c p => CList.add c p.2.cluster 1) []
    let by_hour : C2List Nat ℤ :=
      pairs.foldl (fun c p => C2List.add2 c p.2.ts.hour p.2.cluster 1) []
    let hour_counts := C2List.get2 by_hour lastF.ts.hour
    let distribution := bl_hour hour_counts (bl_overall counts (bl_cond transitions last []))
    let distribution := if distribution = [] then
        CList.add distribution last 1 else distribution
    let total0 := CList.total distribution
    let total := if total0 = 0 then 1 else total0
    let normalized := CList.divAll distribution total
    let lastN : ℚ := (min features.length 5 : Nat)
    let last5 := features.drop (features.length - 5)
    ⟨normalized, (CList.argmax? normalized).map Prod.fst,
      (last5.map Feature.productivity).sum / lastN,
      (last5.map Feature.dopamine_score).sum / lastN, "baseline"⟩

/-- The medium-horizon blend value described by the specification,
written from the claim's words as a function of a candidate cluster `c`
and an hour-of-day `H`: the transition count from the last cluster to
`c`, plus `0.25 ×` the frequency of `c` among successor observations,
plus `0.5 ×` the hour-`H` frequency of `c` among successor
observations.  Used to compare the code's distribution against the
claimed formula at either choice of `H`. -/
def spec_medium_blend (features : List Feature) (H : Nat) (c : ℤ) : ℚ :=
  let pairs := features.zip features.tail
  let lastc := (features.getLastD default).cluster
  ((pairs.countP fun p => decide (p.1.cluster = lastc) && decide (p.2.cluster = c)) : ℚ)
    + (1/4) * ((pairs.countP fun p => decide (p.2.cluster = c)) : ℚ)
    + (1/2) * ((pairs.countP fun p =>
        decide (p.2.ts.hour = H) && decide (p.2.cluster = c)) : ℚ)

end time_series_forecasting

end SelfObserver


/-! ## Library lemmas about the counter model and the embedded functions -/

namespace SelfObserver

namespace CList

variable {K : Type} [DecidableEq K]

theorem get_add (d : CList K) (k : K) (v : ℚ) (k' : K) :
    get (add d k v) k' = get d k' + if k' = k then v else 0 := by
  induction d with
  | nil =>
      by_cases h : k' = k <;> simp [add, get, h]
  | cons p t ih =>
      obtain ⟨pk, pv⟩ := p
      by_cases hk : k = pk
      · subst hk
        by_cases h' : k' = k <;> simp [add, get, h']
      · by_cases h' : k' = pk
        · subst h'
          simp [add, hk, get, Ne.symm hk]
        · simp [add, hk, get, h', ih]

theorem total_add (d : CList K) (k : K) (v : ℚ) :
    total (add d k v) = total d + v := by
  induction d with
  | nil => simp [add, total]
  | cons p t ih =>
      obtain ⟨pk, pv⟩ := p
      by_cases hk : k = pk
      · simp [add, hk, total]
        ring
      · simp [add, hk, total] at ih ⊢
        rw [ih]
        ring

theorem add_ne_nil (d : CList K) (k : K) (v : ℚ) : add d k v ≠ [] := by
  cases d with
  | nil => simp [add]
  | cons p t =>
      obtain ⟨pk, pv⟩ := p
      by_cases hk : k = pk <;> simp [add, hk]

theorem keysOf_add (d : CList K) (k : K) (v : ℚ) :
    keysOf (add d k v) =
      if k ∈ keysOf d then keysOf d else keysOf d ++ [k] := by
  induction d with
  | nil => simp [add, keysOf]
  | cons p t ih =>
      obtain ⟨pk, pv⟩ := p
      by_cases hk : k = pk
      · subst hk
        simp [add, keysOf]
      · simp only [add, if_neg hk, keysOf, List.map_cons, List.mem_cons] at *
        rw [ih]
        by_cases hm : k ∈ List.map Prod.fst t
        · simp [hm, hk]
        · simp [hm, hk]

theorem mem_keysOf_add (d : CList K) (k : K) (v : ℚ) (k' : K) :
    k' ∈ keysOf (add d k v) ↔ k' ∈ keysOf d ∨ k' = k := by
  rw [keysOf_add]
  by_cases hm : k ∈ keysOf d
  · simp only [hm, if_pos]
    constructor
    · exact Or.inl
    · rintro (h | rfl)
      · exact h
      · exact hm
  · simp [hm]

theorem keysOf_nodup_add (d : CList K) (k : K) (v : ℚ)
    (h : (keysOf d).Nodup) : (keysOf (add d k v)).Nodup := by
  rw [keysOf_add]
  by_cases hm : k ∈ keysOf d
  · simpa [hm] using h
  · simp [hm, List.nodup_append, h]

theorem allPos_add (d : CList K) (k : K) (v : ℚ)
    (hd : AllPos d) (hv : 0 < v) : AllPos (add d k v) := by
  induction d with
  | nil =>
      intro p hp
      simp [add] at hp
      simp [hp, hv]
  | cons q t ih =>
      obtain ⟨qk, qv⟩ := q
      have hq : (0 : ℚ) < qv := hd (qk, qv) (by simp)
      have ht : AllPos t := fun p hp => hd p (by simp [hp])
      by_cases hk : k = qk
      · intro p hp
        simp [add, hk] at hp
        rcases hp with hp | hp
        · simp [hp]; positivity
        · exact ht p hp
      · intro p hp
        simp [add, hk] at hp
        rcases hp with hp | hp
        · simp [hp, hq]
        · exact ih ht p hp

theorem total_nonneg_of_allPos (d : CList K) (h : AllPos d) :
    0 ≤ total d := by
  induction d with
  | nil => simp [total]
  | cons p t ih =>
      have hp := h p (by simp)
      have ht : AllPos t := fun q hq => h q (by simp [hq])
      have := ih ht
      simp only [total, List.map_cons, List.sum_cons]
      have : (0:ℚ) ≤ (t.map Prod.snd).sum := by simpa [total] using this
      nlinarith [hp]

theorem total_pos_of_allPos (d : CList K) (h : AllPos d) (hne : d ≠ []) :
    0 < total d := by
  cases d with
  | nil => exact absurd rfl hne
  | cons p t =>
      have hp := h p (by simp)
      have ht : AllPos t := fun q hq => h q (by simp [hq])
      have h2 := total_nonneg_of_allPos t ht
      simp only [total, List.map_cons, List.sum_cons]
      have h3 : (0:ℚ) ≤ (t.map Prod.snd).sum := by simpa [total] using h2
      nlinarith [hp]

theorem get_divAll (d : CList K) (T : ℚ) (k : K) :
    get (divAll d T) k = get d k / T := by
  induction d with
  | nil => simp [divAll, get]
  | cons p t ih =>
      obtain ⟨pk, pv⟩ := p
      by_cases hk : k = pk
      · simp [divAll, get, hk]
      · simp only [divAll, List.map_cons, get, if_neg hk]
        simpa [divAll] using ih

theorem total_divAll (d : CList K) (T : ℚ) :
    total (divAll d T) = total d / T := by
  induction d with
  | nil => simp [divAll, total]
  | cons p t ih =>
      simp only [divAll, total, List.map_cons, List.sum_cons] at ih ⊢
      rw [ih]
      ring

theorem keysOf_divAll (d : CList K) (T : ℚ) :
    keysOf (divAll d T) = keysOf d := by
  induction d with
  | nil => simp [divAll, keysOf]
  | cons p t ih => simp [divAll, keysOf]

theorem mem_divAll (d : CList K) (T : ℚ) (p : K × ℚ) (h : p ∈ divAll d T) :
    ∃ v, (p.1, v) ∈ d ∧ p.2 = v / T := by
  induction d with
  | nil => simp [divAll] at h
  | cons q t ih =>
      simp only [divAll, List.map_cons, List.mem_cons] at h
      rcases h with h | h
      · subst h
        refine ⟨q.2, ?_, rfl⟩
        simp
      · obtain ⟨v, hv, he⟩ := ih h
        exact ⟨v, List.mem_cons_of_mem _ hv, he⟩

theorem get_eq_of_mem (d : CList K) (hnd : (keysOf d).Nodup)
    (k : K) (v : ℚ) (h : (k, v) ∈ d) : get d k = v := by
  induction d with
  | nil => simp at h
  | cons p t ih =>
      obtain ⟨pk, pv⟩ := p
      simp only [keysOf, List.map_cons, List.nodup_cons] at hnd
      rcases List.mem_cons.1 h with h | h
      · obtain ⟨rfl, rfl⟩ := Prod.mk.inj h
        simp [get]
      · have hk : k ≠ pk := by
          intro he
          exact hnd.1 (he ▸ (List.mem_map_of_mem Prod.fst h))
        have ht : (keysOf t).Nodup := by simpa [keysOf] using hnd.2
        simp [get, hk, ih ht h]

theorem mem_of_get_ne_zero (d : CList K) (k : K) (h : get d k ≠ 0) :
    k ∈ keysOf d := by
  induction d with
  | nil => simp [get] at h
  | cons p t ih =>
      obtain ⟨pk, pv⟩ := p
      by_cases hk : k = pk
      · simp [keysOf, hk]
      · simp only [get, if_neg hk] at h
        simp only [keysOf, List.map_cons]
        exact List.mem_cons_of_mem _ (ih h)

theorem best_mem (b : K × ℚ) (t : CList K) :
    best b t = b ∨ best b t ∈ t := by
  induction t generalizing b with
  | nil => simp [best]
  | cons p t ih =>
      by_cases h : p.2 > b.2
      · rcases ih p with h' | h' <;> simp [best, h, h']
      · rcases ih b with h' | h' <;> simp [best, h, h']

theorem le_best (b : K × ℚ) (t : CList K) :
    b.2 ≤ (best b t).2 ∧ ∀ p ∈ t, p.2 ≤ (best b t).2 := by
  induction t generalizing b with
  | nil => simp [best]
  | cons p t ih =>
      by_cases h : p.2 > b.2
      · have hb : best b (p :: t) = best p t := by simp [best, h]
        obtain ⟨h1, h2⟩ := ih p
        rw [hb]
        refine ⟨le_trans (le_of_lt h) h1, fun q hq => ?_⟩
        rcases List.mem_cons.1 hq with rfl | hq
        · exact h1
        · exact h2 q hq
      · have hb : best b (p :: t) = best b t := by simp [best, h]
        obtain ⟨h1, h2⟩ := ih b
        rw [hb]
        refine ⟨h1, fun q hq => ?_⟩
        rcases List.mem_cons.1 hq with rfl | hq
        · exact le_trans (le_of_not_lt h) h1
        · exact h2 q hq

theorem argmax?_spec (d : CList K) (hne : d ≠ []) :
    ∃ p, argmax? d = some p ∧ p ∈ d ∧ ∀ q ∈ d, q.2 ≤ p.2 := by
  cases d with
  | nil => exact absurd rfl hne
  | cons p t =>
      refine ⟨best p t, rfl, ?_, ?_⟩
      · rcases best_mem p t with h | h
        · simp [h]
        · simp [h]
      · intro q hq
        have ⟨h1, h2⟩ := le_best p t
        rcases List.mem_cons.1 hq with hq | hq
        · exact hq ▸ h1
        · exact h2 q hq

end CList

namespace C2List

variable {K1 K2 : Type} [DecidableEq K1] [DecidableEq K2]

theorem get2_add2 (d : C2List K1 K2) (k1 : K1) (k2 : K2) (v : ℚ) (a : K1) :
    get2 (add2 d k1 k2 v) a =
      if a = k1 then CList.add (get2 d a) k2 v else get2 d a := by
  induction d with
  | nil =>
      by_cases h : a = k1 <;> simp [add2, get2, h, CList.add]
  | cons p t ih =>
      obtain ⟨pk, row⟩ := p
      by_cases hk : k1 = pk
      · subst hk
        by_cases h : a = k1 <;> simp [add2, get2, h]
      · by_cases h : a = pk
        · subst h
          simp [add2, hk, get2, Ne.symm hk]
        · simp [add2, hk, get2, h, ih]

end C2List

/-! ## Generic lemmas about counter-building folds -/
theorem foldl_inv {α β : Type} (P : α → Prop) (f : α → β → α) (l : List β)
    (init : α) (h : P init) (hstep : ∀ a b, b ∈ l → P a → P (f a b)) :
    P (l.foldl f init) := by
  induction l generalizing init with
  | nil => exact h
  | cons b t ih =>
      exact ih (f init b) (hstep init b (by simp) h)
        fun a b' hb' => hstep a b' (by simp [hb'])

namespace CList

variable {K : Type} [DecidableEq K]

theorem get_eq_zero_of_not_mem (d : CList K) (k : K) (h : k ∉ keysOf d) :
    get d k = 0 := by
  by_contra hne
  exact h (mem_of_get_ne_zero d k hne)

/-- Folding `d[key x] += 1` over a list counts occurrences per key. -/
theorem get_foldl_count {α : Type} (key : α → K) (l : List α)
    (init : CList K) (k : K) :
    get (l.foldl (fun d x => add d (key x) 1) init) k
      = get init k + (l.countP (fun x => decide (key x = k)) : ℚ) := by
  induction l generalizing init with
  | nil => simp
  | cons a t ih =>
      rw [List.foldl_cons, ih, get_add, List.countP_cons]
      by_cases h : key a = k
      · simp [h]
        ring
      · have h' : ¬k = key a := fun he => h he.symm
        simp [h, h']

/-- Folding a scaled counter `d[p.1] += w * p.2` over a dict with
distinct keys adds `w * get l k` to each key `k`. -/
theorem get_foldl_scaled (w : ℚ) (l : CList K) (hnd : (keysOf l).Nodup)
    (init : CList K) (k : K) :
    get (l.foldl (fun d p => add d p.1 (w * p.2)) init) k
      = get init k + w * get l k := by
  induction l generalizing init with
  | nil => simp [get]
  | cons p t ih =>
      obtain ⟨pk, pv⟩ := p
      simp only [keysOf, List.map_cons, List.nodup_cons] at hnd
      have ht : (keysOf t).Nodup := by simpa [keysOf] using hnd.2
      rw [List.foldl_cons, ih ht, get_add]
      by_cases h : k = pk
      · subst h
        have h0 : get t k = 0 :=
          get_eq_zero_of_not_mem t k (by simpa [keysOf] using hnd.1)
        simp [get, h0]
      · simp [get, h]

end CList

namespace C2List

variable {K1 K2 : Type} [DecidableEq K1] [DecidableEq K2]

/-- Folding `d[k1f x][k2f x] += 1` counts occurrences per key pair. -/
theorem get_get2_foldl_count {α : Type} (k1f : α → K1) (k2f : α → K2)
    (l : List α) (init : C2List K1 K2) (a : K1) (b : K2) :
    CList.get (get2 (l.foldl (fun d x => add2 d (k1f x) (k2f x) 1) init) a) b
      = CList.get (get2 init a) b
        + (l.countP (fun x => decide (k1f x = a) && decide (k2f x = b)) : ℚ) := by
  induction l generalizing init with
  | nil => simp
  | cons x t ih =>
      rw [List.foldl_cons, ih, get2_add2, List.countP_cons]
      by_cases h1 : k1f x = a
      · subst h1
        rw [if_pos rfl, CList.get_add]
        by_cases h2 : k2f x = b
        · simp [h2]
          ring
        · have h2' : ¬b = k2f x := fun he => h2 he.symm
          simp [h2, h2']
      · have h1' : ¬a = k1f x := fun he => h1 he.symm
        simp [h1', h1]

/-- Same as `get_get2_foldl_count` but with entries skipped when
`skip x` holds (the noise filter of `_transition_matrix`). -/
theorem get_get2_foldl_count_cond {α : Type} (skip : α → Prop)
    [DecidablePred skip] (k1f : α → K1) (k2f : α → K2)
    (l : List α) (init : C2List K1 K2) (a : K1) (b : K2) :
    CList.get
        (get2 (l.foldl
          (fun d x => if skip x then d else add2 d (k1f x) (k2f x) 1) init) a) b
      = CList.get (get2 init a) b
        + (l.countP
            (fun x => !decide (skip x) && (decide (k1f x = a) && decide (k2f x = b))) : ℚ) := by
  induction l generalizing init with
  | nil => simp
  | cons x t ih =>
      rw [List.foldl_cons, ih, List.countP_cons]
      by_cases hs : skip x
      · simp [hs]
      · rw [if_neg hs, get2_add2]
        by_cases h1 : k1f x = a
        · subst h1
          rw [if_pos rfl, CList.get_add]
          by_cases h2 : k2f x = b
          · simp [h2, hs]
            ring
          · have h2' : ¬b = k2f x := fun he => h2 he.symm
            simp [h2, h2', hs]
        · have h1' : ¬a = k1f x := fun he => h1 he.symm
          simp [h1', h1, hs]

/-- `get2` returns `[]` or the row of some member. -/
theorem get2_cases (d : C2List K1 K2) (a : K1) :
    get2 d a = [] ∨ ∃ p ∈ d, p.1 = a ∧ p.2 = get2 d a := by
  induction d with
  | nil => exact Or.inl rfl
  | cons p t ih =>
      obtain ⟨pk, row⟩ := p
      by_cases h : a = pk
      · subst h
        exact Or.inr ⟨(a, row), by simp, rfl, by simp [get2]⟩
      · rcases ih with ih | ⟨q, hq, hq1, hq2⟩
        · exact Or.inl (by simpa [get2, h] using ih)
        · exact Or.inr ⟨q, by simp [hq], hq1, by simpa [get2, h] using hq2⟩

end C2List

namespace behavior_model

/-! ## Lemmas about `listMin`, `minIndex` and counter invariants -/
theorem foldl_min_le (x : ℚ) (t : List ℚ) :
    t.foldl min x ≤ x ∧ ∀ y ∈ t, t.foldl min x ≤ y := by
  induction t generalizing x with
  | nil => simp
  | cons y t ih =>
      obtain ⟨h1, h2⟩ := ih (min x y)
      refine ⟨le_trans h1 (min_le_left x y), fun z hz => ?_⟩
      rcases List.mem_cons.1 hz with rfl | hz
      · exact le_trans h1 (min_le_right x z)
      · exact h2 z hz

theorem foldl_min_mem (x : ℚ) (t : List ℚ) :
    t.foldl min x = x ∨ t.foldl min x ∈ t := by
  induction t generalizing x with
  | nil => simp
  | cons y t ih =>
      rcases ih (min x y) with h | h
      · rcases min_choice x y with hc | hc
        · exact Or.inl (by rw [List.foldl_cons, h, hc])
        · exact Or.inr (by rw [List.foldl_cons, h, hc]; simp)
      · exact Or.inr (List.mem_cons_of_mem _ (by simpa [List.foldl_cons] using h))

theorem listMin_mem (l : List ℚ) (hne : l ≠ []) : listMin l ∈ l := by
  cases l with
  | nil => exact absurd rfl hne
  | cons x t =>
      rcases foldl_min_mem x t with h | h
      · simp [listMin, h]
      · simp [listMin]
        exact Or.inr (by simpa using h)

theorem listMin_le (l : List ℚ) : ∀ x ∈ l, listMin l ≤ x := by
  cases l with
  | nil => simp
  | cons x t =>
      intro y hy
      rcases List.mem_cons.1 hy with rfl | hy
      · exact (foldl_min_le y t).1
      · exact (foldl_min_le x t).2 y hy

theorem minIndex_lt_length (l : List ℚ) (hne : l ≠ []) :
    minIndex l < l.length :=
  List.indexOf_lt_length.2 (listMin_mem l hne)

theorem getElem_minIndex (l : List ℚ) (h : minIndex l < l.length) :
    l[minIndex l] = listMin l :=
  List.getElem_indexOf h

end behavior_model

namespace C2List

variable {K1 K2 : Type} [DecidableEq K1] [DecidableEq K2]

theorem rowsOk_add2 (P : K1 → Prop) (Q : K2 → Prop) (d : C2List K1 K2)
    (k1 : K1) (k2 : K2) (v : ℚ) (hP : P k1) (hQ : Q k2) (hv : 0 < v)
    (h : RowsOk P Q d) : RowsOk P Q (add2 d k1 k2 v) := by
  induction d with
  | nil =>
      intro p hp
      simp [add2] at hp
      subst hp
      refine ⟨hP, by simp, ?_, ?_, by simp [CList.keysOf]⟩
      · intro q hq
        simp at hq
        simp [hq, hv]
      · intro q hq
        simp at hq
        simp [hq, hQ]
  | cons q t ih =>
      obtain ⟨qk, row⟩ := q
      have hhead := h (qk, row) (by simp)
      have ht : RowsOk P Q t := fun p hp => h p (by simp [hp])
      by_cases hk : k1 = qk
      · subst hk
        intro p hp
        simp only [add2, if_pos, List.mem_cons] at hp
        rcases hp with hp | hp
        · subst hp
          obtain ⟨h1, h2, h3, h4, h5⟩ := hhead
          refine ⟨h1, CList.add_ne_nil _ _ _, CList.allPos_add _ _ _ h3 hv, ?_,
            CList.keysOf_nodup_add _ _ _ h5⟩
          intro q hq
          have : q.1 ∈ CList.keysOf (CList.add row k2 v) :=
            List.mem_map_of_mem Prod.fst hq
          rcases (CList.mem_keysOf_add row k2 v q.1).1 this with hmem | hmem
          · obtain ⟨r, hr, hre⟩ := List.mem_map.1 hmem
            exact hre ▸ (h4 r hr)
          · exact hmem ▸ hQ
        · exact ht p hp
      · intro p hp
        simp only [add2, hk, if_false, List.mem_cons] at hp
        rcases hp with hp | hp
        · exact hp ▸ hhead
        · exact ih ht p hp

theorem rowsOk_get2 (P : K1 → Prop) (Q : K2 → Prop) (d : C2List K1 K2)
    (h : RowsOk P Q d) (a : K1) :
    CList.AllPos (get2 d a) ∧ (∀ q ∈ get2 d a, Q q.1)
      ∧ (CList.keysOf (get2 d a)).Nodup := by
  rcases get2_cases d a with h0 | ⟨p, hp, _, hp2⟩
  · rw [h0]
    exact ⟨fun q hq => by simp at hq, fun q hq => by simp at hq,
      by simp [CList.keysOf]⟩
  · obtain ⟨_, _, h3, h4, h5⟩ := h p hp
    exact hp2 ▸ ⟨h3, h4, h5⟩

end C2List

namespace CList

variable {K : Type} [DecidableEq K]

/-- What the trailing `total = sum(...) or 1.0; normalized = {k : v/total}`
idiom produces on a well-formed non-empty counter: an exact probability
distribution whose `argmax?` is a maximizer of the distribution. -/
theorem finalize_spec (d : CList K) (hne : d ≠ []) (hpos : AllPos d)
    (hnd : (keysOf d).Nodup) :
    total (divAll d (if total d = 0 then 1 else total d)) = 1 ∧
    ∃ p, argmax? (divAll d (if total d = 0 then 1 else total d)) = some p ∧
      p.1 ∈ keysOf (divAll d (if total d = 0 then 1 else total d)) ∧
      get (divAll d (if total d = 0 then 1 else total d)) p.1 = p.2 ∧
      ∀ q ∈ divAll d (if total d = 0 then 1 else total d), q.2 ≤ p.2 := by
  have htot : 0 < total d := total_pos_of_allPos d hpos hne
  have hT : (if total d = 0 then 1 else total d) = total d := by
    rw [if_neg (ne_of_gt htot)]
  rw [hT]
  have hnen : divAll d (total d) ≠ [] := by
    cases d with
    | nil => exact absurd rfl hne
    | cons p t => simp [divAll]
  obtain ⟨p, hp, hpm, hpmax⟩ := argmax?_spec (divAll d (total d)) hnen
  refine ⟨?_, p, hp, ?_, ?_, hpmax⟩
  · rw [total_divAll]
    field_simp
  · exact List.mem_map_of_mem Prod.fst hpm
  · exact get_eq_of_mem _ (by rw [keysOf_divAll]; exact hnd) p.1 p.2
      (by cases p; exact hpm)

/-- Folding the conditional `if p.1.1 = a then d[p.1.2] += p.2` step of
the baseline's first pass over a dict with distinct pair keys adds
exactly the stored count of `(a, b)`. -/
theorem get_foldl_cond_pair {K1 K2 : Type} [DecidableEq K1] [DecidableEq K2]
    (l : CList (K1 × K2)) (hnd : (keysOf l).Nodup) (a : K1)
    (init : CList K2) (b : K2) :
    get (l.foldl (fun d p => if p.1.1 = a then add d p.1.2 p.2 else d) init) b
      = get init b + get l (a, b) := by
  induction l generalizing init with
  | nil => simp [get]
  | cons p t ih =>
      obtain ⟨⟨k1, k2⟩, v⟩ := p
      simp only [keysOf, List.map_cons, List.nodup_cons] at hnd
      have ht : (keysOf t).Nodup := by simpa [keysOf] using hnd.2
      rw [List.foldl_cons]
      by_cases h1 : k1 = a
      · subst h1
        rw [if_pos rfl, ih ht, get_add]
        by_cases h2 : b = k2
        · subst h2
          have h0 : get t (k1, b) = 0 :=
            get_eq_zero_of_not_mem t _ (by simpa [keysOf] using hnd.1)
          simp [get, h0]
        · have hne : ¬((k1, b) = (k1, k2)) := by simp [h2]
          simp [get, h2, hne]
      · rw [if_neg h1, ih ht]
        have hne : ¬((a, b) = (k1, k2)) := fun he => h1 ((Prod.mk.inj he).1.symm)
        simp [get, hne]

end CList

namespace behavior_digital_twin

/-- The raw transition counter of `_transition_matrix` is well-formed:
no noise keys on either end, non-empty rows with positive counts and
distinct destination keys. -/
theorem transitions_rowsOk (labels : List ℤ) :
    C2List.RowsOk (· ≠ (-1 : ℤ)) (· ≠ (-1 : ℤ)) (_transition_matrix labels).2 := by
  have hd : (_transition_matrix labels).2
      = (labels.zip labels.tail).foldl
        (fun tr ab => if ab.1 = -1 ∨ ab.2 = -1 then tr
          else C2List.add2 tr ab.1 ab.2 1) [] := rfl
  rw [hd]
  refine foldl_inv _ _ _ _ (fun p hp => absurd hp (by simp)) ?_
  intro tr ab hab htr
  by_cases h : ab.1 = -1 ∨ ab.2 = -1
  · simpa [h] using htr
  · push_neg at h
    rw [if_neg (by tauto)]
    exact C2List.rowsOk_add2 _ _ _ _ _ _ h.1 h.2 one_pos htr

/-- Every row of the normalized transition matrix: non-noise source,
non-empty, positive probabilities, non-noise destinations, distinct
destinations, and an exact row sum of `1`. -/
theorem matrix_rows (labels : List ℤ) :
    ∀ p ∈ (_transition_matrix labels).1,
      p.1 ≠ -1 ∧ p.2 ≠ [] ∧ CList.AllPos p.2 ∧ (∀ q ∈ p.2, q.1 ≠ -1)
        ∧ (CList.keysOf p.2).Nodup ∧ CList.total p.2 = 1 := by
  have hm : (_transition_matrix labels).1
      = ((_transition_matrix labels).2).map (fun p =>
          let total := CList.total p.2
          (p.1, CList.divAll p.2 (if total = 0 then 1 else total))) := rfl
  intro p hp
  rw [hm] at hp
  obtain ⟨q, hq, he⟩ := List.mem_map.1 hp
  obtain ⟨h1, h2, h3, h4, h5⟩ := transitions_rowsOk labels q hq
  have htot : 0 < CList.total q.2 := CList.total_pos_of_allPos q.2 h3 h2
  have hT : (if CList.total q.2 = 0 then 1 else CList.total q.2)
      = CList.total q.2 := if_neg (ne_of_gt htot)
  subst he
  simp only [hT]
  refine ⟨h1, ?_, ?_, ?_, ?_, ?_⟩
  · intro habs
    exact h2 (by simpa [CList.divAll] using habs)
  · intro r hr
    obtain ⟨v, hv, hve⟩ := CList.mem_divAll _ _ _ hr
    have hvp : 0 < v := h3 (r.1, v) hv
    rw [hve]
    positivity
  · intro r hr
    obtain ⟨v, hv, _⟩ := CList.mem_divAll _ _ _ hr
    exact h4 (r.1, v) hv
  · rw [CList.keysOf_divAll]
    exact h5
  · rw [CList.total_divAll]
    field_simp

/-- The hourly cluster distribution is well-formed (but its inner keys
may include the noise label `-1`). -/
theorem hourly_rowsOk (features : List Feature) :
    C2List.RowsOk (fun _ => True) (fun _ => True)
      (_hourly_cluster_distribution features) := by
  refine foldl_inv _ _ _ _ (fun p hp => absurd hp (by simp)) ?_
  intro d f hf hd
  exact C2List.rowsOk_add2 _ _ _ _ _ _ trivial trivial one_pos hd

theorem st_markov_ok (matrix : C2List ℤ ℤ) (lc : ℤ) (dist : CList SKey)
    (hm : CList.AllPos (C2List.get2 matrix lc))
    (hd : CList.AllPos dist ∧ (CList.keysOf dist).Nodup) :
    CList.AllPos (st_markov matrix lc dist)
      ∧ (CList.keysOf (st_markov matrix lc dist)).Nodup := by
  unfold st_markov
  by_cases h : lc ∈ matrix.map Prod.fst
  · rw [if_pos h]
    exact foldl_inv (fun d => CList.AllPos d ∧ (CList.keysOf d).Nodup) _ _ _ hd
      fun a b hb hp =>
        ⟨CList.allPos_add _ _ _ hp.1 (hm b hb), CList.keysOf_nodup_add _ _ _ hp.2⟩
  · rw [if_neg h]
    exact hd

theorem st_hour_blend_ok (hour_prior : CList ℤ) (dist : CList SKey)
    (hh : CList.AllPos hour_prior)
    (hd : CList.AllPos dist ∧ (CList.keysOf dist).Nodup) :
    CList.AllPos (st_hour_blend hour_prior dist)
      ∧ (CList.keysOf (st_hour_blend hour_prior dist)).Nodup := by
  unfold st_hour_blend
  exact foldl_inv (fun d => CList.AllPos d ∧ (CList.keysOf d).Nodup) _ _ _ hd
    fun a b hb hp =>
      ⟨CList.allPos_add _ _ _ hp.1 (by have := hh b hb; positivity),
        CList.keysOf_nodup_add _ _ _ hp.2⟩

/-- `round(x, 3)` is the identity when `1000·x` is an integer. -/
theorem pyRound3_intCase (x : ℚ) (h : (1000 * x).den = 1) : pyRound3 x = x := by
  unfold pyRound3
  have hy : (((1000 * x).num : ℚ)) = 1000 * x :=
    Rat.coe_int_num_of_den_eq_one h
  dsimp only
  rw [h, Nat.cast_one, Int.fdiv_one]
  rw [show (1000 * x - ((1000 * x).num : ℚ)) = 0 by rw [hy]; ring]
  norm_num
  rw [hy]
  ring

theorem st_bias_ok (last : Feature) (dist : CList SKey)
    (hd : CList.AllPos dist ∧ (CList.keysOf dist).Nodup) :
    CList.AllPos (st_bias last dist)
      ∧ (CList.keysOf (st_bias last dist)).Nodup := by
  unfold st_bias
  by_cases h1 : last.dopamine_score - last.goal_score > 1/4
  · rw [if_pos h1]
    exact ⟨CList.allPos_add _ _ _ hd.1 (by linarith),
      CList.keysOf_nodup_add _ _ _ hd.2⟩
  · rw [if_neg h1]
    by_cases h2 : last.dopamine_score - last.goal_score < -(3/20)
    · rw [if_pos h2]
      exact ⟨CList.allPos_add _ _ _ hd.1 (by linarith),
        CList.keysOf_nodup_add _ _ _ hd.2⟩
    · rw [if_neg h2]
      exact hd

end behavior_digital_twin

namespace time_series_forecasting

theorem bl_cond_ok (transitions : CList (ℤ × ℤ)) (last : ℤ) (dist : CList ℤ)
    (htr : CList.AllPos transitions)
    (hd : CList.AllPos dist ∧ (CList.keysOf dist).Nodup) :
    CList.AllPos (bl_cond transitions last dist)
      ∧ (CList.keysOf (bl_cond transitions last dist)).Nodup := by
  unfold bl_cond
  refine foldl_inv (fun d => CList.AllPos d ∧ (CList.keysOf d).Nodup) _ _ _ hd ?_
  intro a b hb hp
  by_cases h : b.1.1 = last
  · rw [if_pos h]
    exact ⟨CList.allPos_add _ _ _ hp.1 (htr b hb),
      CList.keysOf_nodup_add _ _ _ hp.2⟩
  · rw [if_neg h]
    exact hp

theorem bl_overall_ok (counts : CList ℤ) (dist : CList ℤ)
    (hc : CList.AllPos counts)
    (hd : CList.AllPos dist ∧ (CList.keysOf dist).Nodup) :
    CList.AllPos (bl_overall counts dist)
      ∧ (CList.keysOf (bl_overall counts dist)).Nodup := by
  unfold bl_overall
  exact foldl_inv (fun d => CList.AllPos d ∧ (CList.keysOf d).Nodup) _ _ _ hd
    fun a b hb hp =>
      ⟨CList.allPos_add _ _ _ hp.1 (by have := hc b hb; positivity),
        CList.keysOf_nodup_add _ _ _ hp.2⟩

theorem bl_hour_ok (hour_counts : CList ℤ) (dist : CList ℤ)
    (hc : CList.AllPos hour_counts)
    (hd : CList.AllPos dist ∧ (CList.keysOf dist).Nodup) :
    CList.AllPos (bl_hour hour_counts dist)
      ∧ (CList.keysOf (bl_hour hour_counts dist)).Nodup := by
  unfold bl_hour
  exact foldl_inv (fun d => CList.AllPos d ∧ (CList.keysOf d).Nodup) _ _ _ hd
    fun a b hb hp =>
      ⟨CList.allPos_add _ _ _ hp.1 (by have := hc b hb; positivity),
        CList.keysOf_nodup_add _ _ _ hp.2⟩

theorem get_bl_cond (transitions : CList (ℤ × ℤ)) (last : ℤ) (dist : CList ℤ)
    (hnd : (CList.keysOf transitions).Nodup) (c : ℤ) :
    CList.get (bl_cond transitions last dist) c
      = CList.get dist c + CList.get transitions (last, c) :=
  CList.get_foldl_cond_pair transitions hnd last dist c

theorem get_bl_overall (counts : CList ℤ) (dist : CList ℤ)
    (hnd : (CList.keysOf counts).Nodup) (c : ℤ) :
    CList.get (bl_overall counts dist) c
      = CList.get dist c + (1/4) * CList.get counts c :=
  CList.get_foldl_scaled (1/4) counts hnd dist c

theorem get_bl_hour (hour_counts : CList ℤ) (dist : CList ℤ)
    (hnd : (CList.keysOf hour_counts).Nodup) (c : ℤ) :
    CList.get (bl_hour hour_counts dist) c
      = CList.get dist c + (1/2) * CList.get hour_counts c :=
  CList.get_foldl_scaled (1/2) hour_counts hnd dist c

end time_series_forecasting

/-! ## The claims -/

/-- C9: the productivity score used by the Forecaster, the Digital Twin
Aggregator and the Incremental State Store is
`clamp(goal_score + 0.5·cognitive_load − 0.4·dopamine_score, 0, 1)`, and
the two private implementations in `behavior_digital_twin.py` and
`time_series_forecasting.py` agree on every `Signals` record. -/
theorem claim_C9 (s : behavior_model.Signals) :
    behavior_digital_twin._productivity_score s
        = time_series_forecasting._productivity_score s ∧
    behavior_digital_twin._productivity_score s
        = max 0 (min 1 (s.goal_score + (1/2) * s.cognitive_load
            - (2/5) * s.dopamine_score)) :=
  ⟨rfl, rfl⟩

/-- C6 (counterexample to the claim as stated): on an observation with
no text at all, the Signal Extractor returns `cognitive_load = 0.2`
(`clamp(0.2 + 0.15·0, 0, 1)`), not `0`. -/
theorem claim_C6_counterexample :
    (behavior_model.derive_signals
        ⟨none, none, none, [], none, .other, none, 0⟩).tokens = [] ∧
    (behavior_model.derive_signals
        ⟨none, none, none, [], none, .other, none, 0⟩).cognitive_load = 1/5 ∧
    (1/5 : ℚ) ≠ 0 := by
  refine ⟨rfl, ?_, by norm_num⟩
  have h : (behavior_model.derive_signals
      ⟨none, none, none, [], none, .other, none, 0⟩).tokens = [] := rfl
  simp only [behavior_model.derive_signals] at h ⊢
  rw [h]
  norm_num

/-- C6 (amended): the Signal Extractor is total, and on an observation
whose concatenated text fields tokenize to the empty token list it
returns `dopamine_score = 0`, `goal_score = 0`, `cognitive_load = 0.2`
and `emotional_tone = 0.5`. -/
theorem claim_C6 (a : behavior_model.Activity)
    (h : (behavior_model.derive_signals a).tokens = []) :
    (behavior_model.derive_signals a).dopamine_score = 0 ∧
    (behavior_model.derive_signals a).goal_score = 0 ∧
    (behavior_model.derive_signals a).cognitive_load = 1/5 ∧
    (behavior_model.derive_signals a).emotional_tone = 1/2 := by
  simp only [behavior_model.derive_signals] at h ⊢
  rw [h]
  norm_num

/-- Witness for C6 at the concrete empty observation. -/
theorem claim_C6_witness :
    (behavior_model.derive_signals
        ⟨none, none, none, [], none, .other, none, 0⟩).tokens = [] ∧
    (behavior_model.derive_signals
        ⟨none, none, none, [], none, .other, none, 0⟩).cognitive_load = 1/5 :=
  ⟨rfl, (claim_C6 ⟨none, none, none, [], none, .other, none, 0⟩ rfl).2.2.1⟩

/-- C2: the Embedding Builder is a deterministic function of the
observation's text fields (title, executable, URL, accessibility
labels, mode): two observations agreeing on those fields get the same
accumulated vector and squared norm — hence, after the deterministic
elementwise division by the norm, bit-identical embedding vectors. -/
theorem claim_C2 (a b : behavior_model.Activity)
    (h : behavior_model.textFields a = behavior_model.textFields b) :
    behavior_model.build_embedding a = behavior_model.build_embedding b := by
  simp only [behavior_model.textFields, Prod.mk.injEq] at h
  obtain ⟨h1, h2, h3, h4, h5⟩ := h
  simp only [behavior_model.build_embedding, behavior_model.derive_signals,
    h1, h2, h3, h4, h5]

/-- Witness for C2: two observations with the same text fields but
different timestamps, cached embeddings and confidences. -/
theorem claim_C2_witness :
    behavior_model.textFields
        ⟨some "VSCode debug session", some "Code.exe", none, ["editor"],
          some "coding", .other, none, 1⟩
      = behavior_model.textFields
        ⟨some "VSCode debug session", some "Code.exe", none, ["editor"],
          some "coding", .dt ⟨10, 30, 12345⟩, some [], 0⟩ ∧
    behavior_model.build_embedding
        ⟨some "VSCode debug session", some "Code.exe", none, ["editor"],
          some "coding", .other, none, 1⟩
      = behavior_model.build_embedding
        ⟨some "VSCode debug session", some "Code.exe", none, ["editor"],
          some "coding", .dt ⟨10, 30, 12345⟩, some [], 0⟩ :=
  ⟨rfl, claim_C2 _ _ rfl⟩

/-- C3: with every optional clustering backend unavailable or raising,
the Clustering Engine runs the terminal two-centroid fallback on any
non-empty batch: it returns exactly one integer label per input, the
seed centroids are the first two points, and each point's label is the
index of a centroid at minimal squared Euclidean distance (the first
such index on ties). -/
theorem claim_C3 (embeddings : List (List ℚ)) (hne : embeddings ≠ []) :
    (behavior_model.cluster_embeddings none none none embeddings).algorithm
        = "simple_kmeans" ∧
    (behavior_model.cluster_embeddings none none none embeddings).labels.length
        = embeddings.length ∧
    ∀ i, i < embeddings.length →
      ∃ j : Nat,
        (behavior_model.cluster_embeddings none none none embeddings).labels.getD i 0
            = (j : ℤ) ∧
        j < (embeddings.take 2).length ∧
        ∀ c ∈ embeddings.take 2,
          behavior_model.sqdist (embeddings.getD i []) ((embeddings.take 2).getD j [])
            ≤ behavior_model.sqdist (embeddings.getD i []) c := by
  have hce : behavior_model.cluster_embeddings none none none embeddings
      = ⟨behavior_model.simple_kmeans_labels embeddings, "simple_kmeans"⟩ := by
    unfold behavior_model.cluster_embeddings
    rw [if_neg hne]
  rw [hce]
  refine ⟨rfl, by simp [behavior_model.simple_kmeans_labels], ?_⟩
  intro i hi
  have hcne : embeddings.take 2 ≠ [] := by
    cases embeddings with
    | nil => exact absurd rfl hne
    | cons e t => simp
  have hdne : (embeddings.take 2).map
      (fun c => behavior_model.sqdist (embeddings.getD i []) c) ≠ [] := by
    intro h
    exact hcne (List.map_eq_nil_iff.1 h)
  refine ⟨behavior_model.minIndex ((embeddings.take 2).map
      (fun c => behavior_model.sqdist (embeddings.getD i []) c)), ?_, ?_, ?_⟩
  · have hl : i < (behavior_model.simple_kmeans_labels embeddings).length := by
      simpa [behavior_model.simple_kmeans_labels] using hi
    rw [List.getD_eq_getElem _ _ hl]
    simp only [behavior_model.simple_kmeans_labels, List.getElem_map]
    rw [List.getD_eq_getElem _ _ hi]
  · have := behavior_model.minIndex_lt_length _ hdne
    simpa using this
  · intro c hc
    have hjlen : behavior_model.minIndex ((embeddings.take 2).map
        (fun c => behavior_model.sqdist (embeddings.getD i []) c))
        < ((embeddings.take 2).map
            (fun c => behavior_model.sqdist (embeddings.getD i []) c)).length :=
      behavior_model.minIndex_lt_length _ hdne
    have hjc : behavior_model.minIndex ((embeddings.take 2).map
        (fun c => behavior_model.sqdist (embeddings.getD i []) c))
        < (embeddings.take 2).length := by simpa using hjlen
    have h1 : behavior_model.sqdist (embeddings.getD i [])
        ((embeddings.take 2).getD (behavior_model.minIndex ((embeddings.take 2).map
            (fun c => behavior_model.sqdist (embeddings.getD i []) c))) [])
        = ((embeddings.take 2).map
            (fun c => behavior_model.sqdist (embeddings.getD i []) c)).getD
          (behavior_model.minIndex ((embeddings.take 2).map
            (fun c => behavior_model.sqdist (embeddings.getD i []) c))) 0 := by
      rw [List.getD_eq_getElem _ _ hjc, List.getD_eq_getElem _ _ hjlen,
        List.getElem_map]
    rw [h1, List.getD_eq_getElem _ _ hjlen, behavior_model.getElem_minIndex _ hjlen]
    exact behavior_model.listMin_le _ _ (List.mem_map_of_mem _ hc)

/-- Witness for C3 on a concrete three-point one-dimensional batch. -/
theorem claim_C3_witness :
    ([[(1 : ℚ)], [5], [2]] : List (List ℚ)) ≠ [] ∧
    (behavior_model.cluster_embeddings none none none
        [[(1 : ℚ)], [5], [2]]).algorithm = "simple_kmeans" ∧
    (behavior_model.cluster_embeddings none none none
        [[(1 : ℚ)], [5], [2]]).labels.length = 3 := by
  have h := claim_C3 [[(1 : ℚ)], [5], [2]] (by decide)
  exact ⟨by decide, h.1, by rw [h.2.1]; rfl⟩

/-- C8 (counterexample to the claim as stated): three observations in
one cluster over ten minutes contain zero mode/cluster switches, yet the
code reports a switch rate of `0.2` per minute — because it divides the
total count of recorded transitions (including self-transitions) by the
elapsed minutes, not the count of switches. -/
theorem claim_C8_counterexample :
    (behavior_digital_twin._stress_signals
        [⟨⟨10, 0, 0⟩, 0, 0, 0, 0⟩, ⟨⟨10, 5, 300⟩, 0, 0, 0, 0⟩,
          ⟨⟨10, 10, 600⟩, 0, 0, 0, 0⟩]
        (behavior_digital_twin._transition_matrix [0, 0, 0]).2).switch_rate
      = 1/5 ∧
    ((behavior_digital_twin.switch_count [0, 0, 0] : ℚ) / 10) = 0 ∧
    (1/5 : ℚ) ≠ 0 := by
  refine ⟨?_, ?_, by norm_num⟩
  · have hr : behavior_digital_twin.stress_rate
        [⟨⟨10, 0, 0⟩, 0, 0, 0, 0⟩, ⟨⟨10, 5, 300⟩, 0, 0, 0, 0⟩,
          ⟨⟨10, 10, 600⟩, 0, 0, 0, 0⟩]
        (behavior_digital_twin._transition_matrix [0, 0, 0]).2 = 1/5 := by
      norm_num [behavior_digital_twin.stress_rate,
        behavior_digital_twin._transition_matrix, C2List.add2, CList.add,
        CList.total, List.getLastD, List.headD]
    have hne3 : ([⟨⟨10, 0, 0⟩, 0, 0, 0, 0⟩, ⟨⟨10, 5, 300⟩, 0, 0, 0, 0⟩,
        ⟨⟨10, 10, 600⟩, 0, 0, 0, 0⟩] : List behavior_digital_twin.Feature)
        ≠ [] := by simp
    norm_num [behavior_digital_twin._stress_signals, if_neg hne3, hr,
      behavior_digital_twin.pyRound3_intCase (1/5) (by norm_num)]
  · norm_num [behavior_digital_twin.switch_count]

/-- C8 (amended): the stress estimate divides the total recorded
(non-noise) transition count — consecutive label pairs including
self-transitions — by the elapsed minutes between first and last
observation, and bands the rate at 0.4 and 0.8 per minute ("niedrig"
/ "mittel" / "hoch"); in particular a sequence whose transition total
is 20 over 10 elapsed minutes rates 2.0 per minute, band "hoch". -/
theorem claim_C8 (features : List behavior_digital_twin.Feature)
    (transitions : C2List ℤ ℤ) (hne : features ≠ []) :
    ((behavior_digital_twin._stress_signals features transitions).estimate = "hoch"
        ↔ 4/5 < behavior_digital_twin.stress_rate features transitions) ∧
    ((behavior_digital_twin._stress_signals features transitions).estimate = "mittel"
        ↔ (2/5 < behavior_digital_twin.stress_rate features transitions
            ∧ behavior_digital_twin.stress_rate features transitions ≤ 4/5)) ∧
    ((behavior_digital_twin._stress_signals features transitions).estimate = "niedrig"
        ↔ behavior_digital_twin.stress_rate features transitions ≤ 2/5) ∧
    (behavior_digital_twin._stress_signals features transitions).switch_rate
        = behavior_digital_twin.pyRound3
            (behavior_digital_twin.stress_rate features transitions) ∧
    (((features.getLastD default).ts.epochSeconds
          - (features.headD default).ts.epochSeconds) / 60 = 10 →
      (transitions.map fun p => CList.total p.2).sum = 20 →
      behavior_digital_twin.stress_rate features transitions = 2
        ∧ (behavior_digital_twin._stress_signals features transitions).switch_rate = 2
        ∧ (behavior_digital_twin._stress_signals features transitions).estimate
            = "hoch") := by
  unfold behavior_digital_twin._stress_signals
  rw [if_neg hne]
  set r := behavior_digital_twin.stress_rate features transitions with hr
  have hest : ∀ s : String,
      (({ switch_rate := behavior_digital_twin.pyRound3 r,
          estimate := if r > 4/5 then "hoch" else if r > 2/5 then "mittel"
            else "niedrig" } : behavior_digital_twin.StressResult).estimate = s)
        ↔ ((if r > 4/5 then "hoch" else if r > 2/5 then "mittel"
            else "niedrig") = s) := fun s => Iff.rfl
  refine ⟨?_, ?_, ?_, rfl, ?_⟩
  · rw [hest]
    by_cases h1 : r > 4/5
    · simp [h1]
    · by_cases h2 : r > 2/5 <;> simp [h1, h2] <;> intro hc <;> linarith
  · rw [hest]
    by_cases h1 : r > 4/5
    · rw [if_pos h1]
      constructor
      · intro hc
        exact absurd hc (by decide)
      · rintro ⟨_, hle⟩
        linarith
    · rw [if_neg h1]
      by_cases h2 : r > 2/5
      · rw [if_pos h2]
        exact ⟨fun _ => ⟨h2, le_of_not_lt h1⟩, fun _ => rfl⟩
      · rw [if_neg h2]
        constructor
        · intro hc
          exact absurd hc (by decide)
        · rintro ⟨hgt, _⟩
          exact absurd hgt h2
  · rw [hest]
    by_cases h1 : r > 4/5
    · rw [if_pos h1]
      constructor
      · intro hc
        exact absurd hc (by decide)
      · intro hle
        linarith
    · rw [if_neg h1]
      by_cases h2 : r > 2/5
      · rw [if_pos h2]
        constructor
        · intro hc
          exact absurd hc (by decide)
        · intro hle
          exact absurd h2 (not_lt.2 hle)
      · rw [if_neg h2]
        exact ⟨fun _ => le_of_not_lt h2, fun _ => rfl⟩
  · intro hm hs
    have hr2 : r = 2 := by
      rw [hr]
      unfold behavior_digital_twin.stress_rate
      rw [hm, hs]
      norm_num
    rw [hr2]
    refine ⟨rfl, ?_, by norm_num⟩
    show behavior_digital_twin.pyRound3 2 = 2
    exact behavior_digital_twin.pyRound3_intCase 2 (by norm_num)

/-- Witness for C8: two observations ten minutes apart with a recorded
transition total of 20. -/
theorem claim_C8_witness :
    ([⟨⟨10, 0, 0⟩, 0, 0, 0, 0⟩, ⟨⟨10, 10, 600⟩, 0, 0, 0, 0⟩]
        : List behavior_digital_twin.Feature) ≠ [] ∧
    (behavior_digital_twin._stress_signals
        [⟨⟨10, 0, 0⟩, 0, 0, 0, 0⟩, ⟨⟨10, 10, 600⟩, 0, 0, 0, 0⟩]
        [((0 : ℤ), [((1 : ℤ), (20 : ℚ))])]).switch_rate = 2 ∧
    (behavior_digital_twin._stress_signals
        [⟨⟨10, 0, 0⟩, 0, 0, 0, 0⟩, ⟨⟨10, 10, 600⟩, 0, 0, 0, 0⟩]
        [((0 : ℤ), [((1 : ℤ), (20 : ℚ))])]).estimate = "hoch" := by
  have h := (claim_C8
    [⟨⟨10, 0, 0⟩, 0, 0, 0, 0⟩, ⟨⟨10, 10, 600⟩, 0, 0, 0, 0⟩]
    [((0 : ℤ), [((1 : ℤ), (20 : ℚ))])] (by simp))
  have hsc := h.2.2.2.2 (by norm_num [List.getLastD, List.headD])
    (by norm_num [CList.total])
  exact ⟨by simp, hsc.2.1, hsc.2.2⟩

/-- C4: every row of the transition matrix is a probability
distribution summing exactly to 1, no source or destination key is the
noise label `-1`, and the underlying counts record exactly the
consecutive label pairs that do not touch `-1` (pairs touching `-1` on
either end are excluded). -/
theorem claim_C4 (labels : List ℤ) :
    (∀ p ∈ (behavior_digital_twin._transition_matrix labels).1,
        p.1 ≠ -1 ∧ p.2 ≠ [] ∧ CList.total p.2 = 1 ∧ ∀ q ∈ p.2, q.1 ≠ -1) ∧
    (∀ a b : ℤ,
        CList.get (C2List.get2 (behavior_digital_twin._transition_matrix labels).2 a) b
          = if a = -1 ∨ b = -1 then 0
            else ((labels.zip labels.tail).countP
              (fun p => decide (p.1 = a) && decide (p.2 = b)) : ℚ)) := by
  constructor
  · intro p hp
    obtain ⟨h1, h2, _, h4, _, h6⟩ := behavior_digital_twin.matrix_rows labels p hp
    exact ⟨h1, h2, h6, h4⟩
  · intro a b
    have he : (behavior_digital_twin._transition_matrix labels).2
        = (labels.zip labels.tail).foldl
          (fun tr ab => if ab.1 = -1 ∨ ab.2 = -1 then tr
            else C2List.add2 tr ab.1 ab.2 1) [] := rfl
    have h := C2List.get_get2_foldl_count_cond
      (fun ab : ℤ × ℤ => ab.1 = -1 ∨ ab.2 = -1) Prod.fst Prod.snd
      (labels.zip labels.tail) [] a b
    rw [he]
    have h0 : CList.get (C2List.get2 ([] : C2List ℤ ℤ) a) b = 0 := rfl
    rw [h, h0, zero_add]
    by_cases hab : a = -1 ∨ b = -1
    · rw [if_pos hab]
      have : ∀ p ∈ labels.zip labels.tail,
          ¬(!decide (p.1 = -1 ∨ p.2 = -1)
            && (decide (p.1 = a) && decide (p.2 = b))) = true := by
        intro p _ hcontra
        simp only [Bool.and_eq_true, Bool.not_eq_true', decide_eq_false_iff_not,
          decide_eq_true_eq] at hcontra
        rcases hab with rfl | rfl <;> tauto
      rw [List.countP_eq_zero.2 this]
      norm_num
    · rw [if_neg hab]
      push_neg at hab
      congr 1
      apply List.countP_congr
      intro p _
      by_cases h1 : p.1 = a
      · by_cases h2 : p.2 = b
        · simp [h1, h2, hab.1, hab.2]
        · simp [h1, h2]
      · simp [h1]

/-- Witness for C4 on the label sequence `[0, 1, 0, -1, 2]`: the row of
source `0` is a singleton distribution on destination `1` with
probability 1, and the counts of `(0, 1)` and of noise-touching pairs
come out as claimed. -/
theorem claim_C4_witness :
    ((0 : ℤ), [((1 : ℤ), (1 : ℚ))])
        ∈ (behavior_digital_twin._transition_matrix [0, 1, 0, -1, 2]).1 ∧
    ((0 : ℤ) ≠ -1 ∧ [((1 : ℤ), (1 : ℚ))] ≠ []
      ∧ CList.total [((1 : ℤ), (1 : ℚ))] = 1
      ∧ ∀ q ∈ [((1 : ℤ), (1 : ℚ))], q.1 ≠ -1) ∧
    CList.get (C2List.get2
        (behavior_digital_twin._transition_matrix [0, 1, 0, -1, 2]).2 0) 1 = 1 ∧
    CList.get (C2List.get2
        (behavior_digital_twin._transition_matrix [0, 1, 0, -1, 2]).2 0) (-1) = 0 := by
  have h := claim_C4 [0, 1, 0, -1, 2]
  have hmem : ((0 : ℤ), [((1 : ℤ), (1 : ℚ))])
      ∈ (behavior_digital_twin._transition_matrix [0, 1, 0, -1, 2]).1 := by
    norm_num [behavior_digital_twin._transition_matrix, C2List.add2,
      CList.add, CList.total, CList.divAll]
  refine ⟨hmem, h.1 _ hmem, ?_, ?_⟩
  · rw [h.2 0 1]
    norm_num
  · rw [h.2 0 (-1)]
    norm_num

/-- The reduced form of `_short_term_forecast` once the last feature is
known. -/
theorem st_eq (features : List behavior_digital_twin.Feature)
    (M : C2List ℤ ℤ) (H : C2List Nat ℤ) (last : behavior_digital_twin.Feature)
    (hlast : features.getLast? = some last) :
    behavior_digital_twin._short_term_forecast features M H =
      (let dist := behavior_digital_twin.st_bias last
          (behavior_digital_twin.st_hour_blend (C2List.get2 H last.ts.hour)
            (behavior_digital_twin.st_markov M last.cluster []))
       let dist2 := if dist = [] then
          CList.add dist (behavior_digital_twin.SKey.cluster last.cluster) 1 else dist
       let total := if CList.total dist2 = 0 then 1 else CList.total dist2
       ⟨(CList.argmax? (CList.divAll dist2 total)).map Prod.fst,
         CList.divAll dist2 total, "markov+context"⟩) := by
  unfold behavior_digital_twin._short_term_forecast
  rw [hlast]

/-- The reduced form of `_rolling_probability_baseline` once the last
feature is known. -/
theorem bl_eq (features : List behavior_digital_twin.Feature)
    (lastF : behavior_digital_twin.Feature)
    (hlast : features.getLast? = some lastF) :
    time_series_forecasting._rolling_probability_baseline features =
      (let pairs := features.zip features.tail
       let transitions : CList (ℤ × ℤ) :=
         pairs.foldl (fun c p => CList.add c (p.1.cluster, p.2.cluster) 1) []
       let counts : CList ℤ :=
         pairs.foldl (fun c p => CList.add c p.2.cluster 1) []
       let by_hour : C2List Nat ℤ :=
         pairs.foldl (fun c p => C2List.add2 c p.2.ts.hour p.2.cluster 1) []
       let dist := time_series_forecasting.bl_hour (C2List.get2 by_hour lastF.ts.hour)
         (time_series_forecasting.bl_overall counts
           (time_series_forecasting.bl_cond transitions lastF.cluster []))
       let dist2 := if dist = [] then CList.add dist lastF.cluster 1 else dist
       let total := if CList.total dist2 = 0 then 1 else CList.total dist2
       ⟨CList.divAll dist2 total,
         (CList.argmax? (CList.divAll dist2 total)).map Prod.fst,
         ((features.drop (features.length - 5)).map
             behavior_digital_twin.Feature.productivity).sum
           / ((min features.length 5 : Nat) : ℚ),
         ((features.drop (features.length - 5)).map
             behavior_digital_twin.Feature.dopamine_score).sum
           / ((min features.length 5 : Nat) : ℚ), "baseline"⟩) := by
  unfold time_series_forecasting._rolling_probability_baseline
  rw [hlast]

/-- Counters built with `+1` increments have positive values and
distinct keys. -/
theorem foldl_count_ok {α K : Type} [DecidableEq K] (key : α → K)
    (l : List α) (init : CList K)
    (h : CList.AllPos init ∧ (CList.keysOf init).Nodup) :
    CList.AllPos (l.foldl (fun c x => CList.add c (key x) 1) init)
      ∧ (CList.keysOf (l.foldl (fun c x => CList.add c (key x) 1) init)).Nodup :=
  foldl_inv (fun d => CList.AllPos d ∧ (CList.keysOf d).Nodup) _ l init h
    fun a b _ hp =>
      ⟨CList.allPos_add _ _ _ hp.1 one_pos, CList.keysOf_nodup_add _ _ _ hp.2⟩

/-- C7: on a non-empty feature batch, the short-horizon forecast (fed
the pipeline's transition matrix and hourly distribution) and the
medium-horizon baseline both return a distribution whose values sum
exactly to 1, and the reported prediction is a key of that distribution
whose probability is maximal. -/
theorem claim_C7 :
    (∀ (features : List behavior_digital_twin.Feature) (labels : List ℤ),
      features ≠ [] →
      CList.total (behavior_digital_twin._short_term_forecast features
          (behavior_digital_twin._transition_matrix labels).1
          (behavior_digital_twin._hourly_cluster_distribution features)).distribution
        = 1 ∧
      ∃ k, (behavior_digital_twin._short_term_forecast features
            (behavior_digital_twin._transition_matrix labels).1
            (behavior_digital_twin._hourly_cluster_distribution features)).predicted_cluster
          = some k
        ∧ k ∈ CList.keysOf (behavior_digital_twin._short_term_forecast features
            (behavior_digital_twin._transition_matrix labels).1
            (behavior_digital_twin._hourly_cluster_distribution features)).distribution
        ∧ ∀ q ∈ (behavior_digital_twin._short_term_forecast features
            (behavior_digital_twin._transition_matrix labels).1
            (behavior_digital_twin._hourly_cluster_distribution features)).distribution,
            q.2 ≤ CList.get (behavior_digital_twin._short_term_forecast features
              (behavior_digital_twin._transition_matrix labels).1
              (behavior_digital_twin._hourly_cluster_distribution features)).distribution k) ∧
    (∀ features : List behavior_digital_twin.Feature, features ≠ [] →
      CList.total
          (time_series_forecasting._rolling_probability_baseline features).distribution
        = 1 ∧
      ∃ k, (time_series_forecasting._rolling_probability_baseline
            features).predicted_cluster = some k
        ∧ k ∈ CList.keysOf (time_series_forecasting._rolling_probability_baseline
            features).distribution
        ∧ ∀ q ∈ (time_series_forecasting._rolling_probability_baseline
            features).distribution,
            q.2 ≤ CList.get (time_series_forecasting._rolling_probability_baseline
              features).distribution k) := by
  constructor
  · intro features labels hne
    obtain ⟨last, hlast⟩ : ∃ last, features.getLast? = some last := by
      cases h : features.getLast? with
      | none => exact absurd (List.getLast?_eq_none_iff.1 h) hne
      | some x => exact ⟨x, rfl⟩
    rw [st_eq features (behavior_digital_twin._transition_matrix labels).1
      (behavior_digital_twin._hourly_cluster_distribution features) last hlast]
    dsimp only
    have hmOk : C2List.RowsOk (· ≠ (-1 : ℤ)) (· ≠ (-1 : ℤ))
        (behavior_digital_twin._transition_matrix labels).1 := by
      intro p hp
      obtain ⟨h1, h2, h3, h4, h5, _⟩ := behavior_digital_twin.matrix_rows labels p hp
      exact ⟨h1, h2, h3, h4, h5⟩
    have hm := (C2List.rowsOk_get2 _ _ _ hmOk last.cluster).1
    have hh := (C2List.rowsOk_get2 _ _ _
      (behavior_digital_twin.hourly_rowsOk features) last.ts.hour).1
    have hd0 : CList.AllPos ([] : CList behavior_digital_twin.SKey)
        ∧ (CList.keysOf ([] : CList behavior_digital_twin.SKey)).Nodup :=
      ⟨fun p hp => absurd hp (List.not_mem_nil p), List.nodup_nil⟩
    have h1 := behavior_digital_twin.st_markov_ok
      (behavior_digital_twin._transition_matrix labels).1 last.cluster [] hm hd0
    have h2 := behavior_digital_twin.st_hour_blend_ok
      (C2List.get2 (behavior_digital_twin._hourly_cluster_distribution features)
        last.ts.hour) _ hh h1
    have h3 := behavior_digital_twin.st_bias_ok last _ h2
    set D0 := behavior_digital_twin.st_bias last
      (behavior_digital_twin.st_hour_blend
        (C2List.get2 (behavior_digital_twin._hourly_cluster_distribution features)
          last.ts.hour)
        (behavior_digital_twin.st_markov
          (behavior_digital_twin._transition_matrix labels).1 last.cluster []))
      with hD0
    have hDD : (if D0 = [] then
          CList.add D0 (behavior_digital_twin.SKey.cluster last.cluster) 1 else D0) ≠ []
        ∧ CList.AllPos (if D0 = [] then
            CList.add D0 (behavior_digital_twin.SKey.cluster last.cluster) 1 else D0)
        ∧ (CList.keysOf (if D0 = [] then
            CList.add D0 (behavior_digital_twin.SKey.cluster last.cluster) 1
            else D0)).Nodup := by
      by_cases hDe : D0 = []
      · rw [if_pos hDe, hDe]
        refine ⟨CList.add_ne_nil _ _ _, ?_, ?_⟩
        · exact CList.allPos_add _ _ _ (fun p hp => absurd hp (List.not_mem_nil p))
            one_pos
        · exact CList.keysOf_nodup_add _ _ _ List.nodup_nil
      · rw [if_neg hDe]
        exact ⟨hDe, h3.1, h3.2⟩
    obtain ⟨key1, p, hp, hpm, hpg, hpmax⟩ :=
      CList.finalize_spec _ hDD.1 hDD.2.1 hDD.2.2
    refine ⟨key1, p.1, ?_, hpm, ?_⟩
    · rw [hp]
      rfl
    · intro q hq
      rw [hpg]
      exact hpmax q hq
  · intro features hne
    obtain ⟨lastF, hlast⟩ : ∃ lastF, features.getLast? = some lastF := by
      cases h : features.getLast? with
      | none => exact absurd (List.getLast?_eq_none_iff.1 h) hne
      | some x => exact ⟨x, rfl⟩
    rw [bl_eq features lastF hlast]
    dsimp only
    have htr := foldl_count_ok
      (fun p : behavior_digital_twin.Feature × behavior_digital_twin.Feature =>
        (p.1.cluster, p.2.cluster))
      (features.zip features.tail) []
      ⟨fun p hp => absurd hp (List.not_mem_nil p), List.nodup_nil⟩
    have hcnt := foldl_count_ok
      (fun p : behavior_digital_twin.Feature × behavior_digital_twin.Feature =>
        p.2.cluster)
      (features.zip features.tail) []
      ⟨fun p hp => absurd hp (List.not_mem_nil p), List.nodup_nil⟩
    have hbh : C2List.RowsOk (fun _ => True) (fun _ => True)
        ((features.zip features.tail).foldl
          (fun c p => C2List.add2 c p.2.ts.hour p.2.cluster 1) []) := by
      refine foldl_inv _ _ _ _ (fun p hp => absurd hp (List.not_mem_nil p)) ?_
      intro d f hf hd
      exact C2List.rowsOk_add2 _ _ _ _ _ _ trivial trivial one_pos hd
    have hhc := (C2List.rowsOk_get2 _ _ _ hbh lastF.ts.hour).1
    have hd0 : CList.AllPos ([] : CList ℤ)
        ∧ (CList.keysOf ([] : CList ℤ)).Nodup :=
      ⟨fun p hp => absurd hp (List.not_mem_nil p), List.nodup_nil⟩
    have h1 := time_series_forecasting.bl_cond_ok _ lastF.cluster [] htr.1 hd0
    have h2 := time_series_forecasting.bl_overall_ok _ _ hcnt.1 h1
    have h3 := time_series_forecasting.bl_hour_ok _ _ hhc h2
    set D0 := time_series_forecasting.bl_hour
      (C2List.get2 ((features.zip features.tail).foldl
        (fun c p => C2List.add2 c p.2.ts.hour p.2.cluster 1) []) lastF.ts.hour)
      (time_series_forecasting.bl_overall
        ((features.zip features.tail).foldl
          (fun c p => CList.add c p.2.cluster 1) [])
        (time_series_forecasting.bl_cond
          ((features.zip features.tail).foldl
            (fun c p => CList.add c (p.1.cluster, p.2.cluster) 1) [])
          lastF.cluster [])) with hD0
    have hDD : (if D0 = [] then CList.add D0 lastF.cluster 1 else D0) ≠ []
        ∧ CList.AllPos (if D0 = [] then CList.add D0 lastF.cluster 1 else D0)
        ∧ (CList.keysOf (if D0 = [] then CList.add D0 lastF.cluster 1
            else D0)).Nodup := by
      by_cases hDe : D0 = []
      · rw [if_pos hDe, hDe]
        refine ⟨CList.add_ne_nil _ _ _, ?_, ?_⟩
        · exact CList.allPos_add _ _ _ (fun p hp => absurd hp (List.not_mem_nil p))
            one_pos
        · exact CList.keysOf_nodup_add _ _ _ List.nodup_nil
      · rw [if_neg hDe]
        exact ⟨hDe, h3.1, h3.2⟩
    obtain ⟨key1, p, hp, hpm, hpg, hpmax⟩ :=
      CList.finalize_spec _ hDD.1 hDD.2.1 hDD.2.2
    refine ⟨key1, p.1, ?_, hpm, ?_⟩
    · rw [hp]
      rfl
    · intro q hq
      rw [hpg]
      exact hpmax q hq

/-- Witness for C7 on a concrete two-observation batch with labels
`[0, 1]`. -/
theorem claim_C7_witness :
    ([⟨⟨10, 0, 0⟩, 0, 0, 0, 0⟩, ⟨⟨10, 10, 600⟩, 1, 0, 0, 0⟩]
        : List behavior_digital_twin.Feature) ≠ [] ∧
    CList.total (behavior_digital_twin._short_term_forecast
        [⟨⟨10, 0, 0⟩, 0, 0, 0, 0⟩, ⟨⟨10, 10, 600⟩, 1, 0, 0, 0⟩]
        (behavior_digital_twin._transition_matrix [0, 1]).1
        (behavior_digital_twin._hourly_cluster_distribution
          [⟨⟨10, 0, 0⟩, 0, 0, 0, 0⟩, ⟨⟨10, 10, 600⟩, 1, 0, 0, 0⟩])).distribution = 1 ∧
    CList.total (time_series_forecasting._rolling_probability_baseline
        [⟨⟨10, 0, 0⟩, 0, 0, 0, 0⟩, ⟨⟨10, 10, 600⟩, 1, 0, 0, 0⟩]).distribution = 1 := by
  refine ⟨by simp, ?_, ?_⟩
  · exact ((claim_C7.1
      [⟨⟨10, 0, 0⟩, 0, 0, 0, 0⟩, ⟨⟨10, 10, 600⟩, 1, 0, 0, 0⟩] [0, 1]) (by simp)).1
  · exact ((claim_C7.2
      [⟨⟨10, 0, 0⟩, 0, 0, 0, 0⟩, ⟨⟨10, 10, 600⟩, 1, 0, 0, 0⟩]) (by simp)).1

/-- Folds whose steps never return the empty counter preserve
non-emptiness. -/
theorem foldl_ne_nil_pres {α K : Type} (step : CList K → α → CList K)
    (hstep : ∀ d x, d ≠ [] → step d x ≠ []) (l : List α) (init : CList K)
    (h : init ≠ []) : l.foldl step init ≠ [] :=
  foldl_inv (fun d => d ≠ []) step l init h fun a b _ ha => hstep a b ha

/-- A counter built with `+1` increments over a non-empty list is
non-empty. -/
theorem foldl_count_ne_nil {α K : Type} [DecidableEq K] (key : α → K)
    (l : List α) (hl : l ≠ []) :
    l.foldl (fun c x => CList.add c (key x) 1) [] ≠ [] := by
  cases l with
  | nil => exact absurd rfl hl
  | cons x t =>
      rw [List.foldl_cons]
      exact foldl_ne_nil_pres _ (fun d x _ => CList.add_ne_nil d (key x) 1) t _
        (CList.add_ne_nil _ _ _)

theorem bl_overall_ne_nil (counts : CList ℤ) (dist : CList ℤ)
    (h : counts ≠ []) : time_series_forecasting.bl_overall counts dist ≠ [] := by
  cases counts with
  | nil => exact absurd rfl h
  | cons c t =>
      unfold time_series_forecasting.bl_overall
      rw [List.foldl_cons]
      exact foldl_ne_nil_pres _ (fun d x _ => CList.add_ne_nil d x.1 ((1/4) * x.2))
        t _ (CList.add_ne_nil _ _ _)

theorem bl_hour_ne_nil (hour_counts : CList ℤ) (dist : CList ℤ)
    (h : dist ≠ []) : time_series_forecasting.bl_hour hour_counts dist ≠ [] := by
  unfold time_series_forecasting.bl_hour
  exact foldl_ne_nil_pres _ (fun d x _ => CList.add_ne_nil d x.1 ((1/2) * x.2))
    hour_counts dist h

/-- C5 (amended): on a batch of at least two features, the
medium-horizon baseline distribution is exactly the normalization of
the claimed blend — transition counts conditioned on the last cluster,
plus 0.25 × each cluster's successor frequency, plus 0.5 × the
hour-of-day successor frequency — taken at the hour OF the last
observation (not the hour after it). -/
theorem claim_C5 (features : List behavior_digital_twin.Feature)
    (h2 : 2 ≤ features.length) :
    ∃ T : ℚ, 0 < T ∧
      (∀ c : ℤ,
        CList.get
            (time_series_forecasting._rolling_probability_baseline features).distribution c
          = time_series_forecasting.spec_medium_blend features
              ((features.getLastD default).ts.hour) c / T) ∧
      CList.total
          (time_series_forecasting._rolling_probability_baseline features).distribution
        = 1 := by
  have hne : features ≠ [] := by
    intro h
    rw [h] at h2
    simp at h2
  obtain ⟨lastF, hlast⟩ : ∃ lastF, features.getLast? = some lastF := by
    cases h : features.getLast? with
    | none => exact absurd (List.getLast?_eq_none_iff.1 h) hne
    | some x => exact ⟨x, rfl⟩
  have hlastD : features.getLastD default = lastF := by
    rw [List.getLastD_eq_getLast?, hlast]
    rfl
  have hpne : features.zip features.tail ≠ [] := by
    rw [← List.length_pos, List.length_zip, List.length_tail]
    omega
  rw [bl_eq features lastF hlast]
  dsimp only
  -- well-formedness of the three counters
  have htr := foldl_count_ok
    (fun p : behavior_digital_twin.Feature × behavior_digital_twin.Feature =>
      (p.1.cluster, p.2.cluster))
    (features.zip features.tail) []
    ⟨fun p hp => absurd hp (List.not_mem_nil p), List.nodup_nil⟩
  have hcnt := foldl_count_ok
    (fun p : behavior_digital_twin.Feature × behavior_digital_twin.Feature =>
      p.2.cluster)
    (features.zip features.tail) []
    ⟨fun p hp => absurd hp (List.not_mem_nil p), List.nodup_nil⟩
  have hbh : C2List.RowsOk (fun _ => True) (fun _ => True)
      ((features.zip features.tail).foldl
        (fun c p => C2List.add2 c p.2.ts.hour p.2.cluster 1) []) := by
    refine foldl_inv _ _ _ _ (fun p hp => absurd hp (List.not_mem_nil p)) ?_
    intro d f hf hd
    exact C2List.rowsOk_add2 _ _ _ _ _ _ trivial trivial one_pos hd
  have hhcOk := C2List.rowsOk_get2 _ _ _ hbh lastF.ts.hour
  have hd0 : CList.AllPos ([] : CList ℤ)
      ∧ (CList.keysOf ([] : CList ℤ)).Nodup :=
    ⟨fun p hp => absurd hp (List.not_mem_nil p), List.nodup_nil⟩
  have h1 := time_series_forecasting.bl_cond_ok _ lastF.cluster [] htr.1 hd0
  have h2' := time_series_forecasting.bl_overall_ok _ _ hcnt.1 h1
  have h3 := time_series_forecasting.bl_hour_ok _ _ hhcOk.1 h2'
  set D0 := time_series_forecasting.bl_hour
    (C2List.get2 ((features.zip features.tail).foldl
      (fun c p => C2List.add2 c p.2.ts.hour p.2.cluster 1) []) lastF.ts.hour)
    (time_series_forecasting.bl_overall
      ((features.zip features.tail).foldl
        (fun c p => CList.add c p.2.cluster 1) [])
      (time_series_forecasting.bl_cond
        ((features.zip features.tail).foldl
          (fun c p => CList.add c (p.1.cluster, p.2.cluster) 1) [])
        lastF.cluster [])) with hD0
  have hD0ne : D0 ≠ [] := by
    rw [hD0]
    exact bl_hour_ne_nil _ _ (bl_overall_ne_nil _ _
      (foldl_count_ne_nil _ _ hpne))
  rw [if_neg hD0ne]
  have htot : 0 < CList.total D0 := CList.total_pos_of_allPos D0 h3.1 hD0ne
  have hT : (if CList.total D0 = 0 then 1 else CList.total D0) = CList.total D0 :=
    if_neg (ne_of_gt htot)
  refine ⟨CList.total D0, htot, ?_, ?_⟩
  · intro c
    rw [hT, CList.get_divAll]
    congr 1
    -- characterize `get D0 c` as the claimed blend
    rw [hD0]
    rw [time_series_forecasting.get_bl_hour _ _ hhcOk.2.2,
      time_series_forecasting.get_bl_overall _ _ hcnt.2,
      time_series_forecasting.get_bl_cond _ _ _ htr.2]
    have htrg := CList.get_foldl_count
      (fun p : behavior_digital_twin.Feature × behavior_digital_twin.Feature =>
        (p.1.cluster, p.2.cluster))
      (features.zip features.tail) [] (lastF.cluster, c)
    have hcntg := CList.get_foldl_count
      (fun p : behavior_digital_twin.Feature × behavior_digital_twin.Feature =>
        p.2.cluster)
      (features.zip features.tail) [] c
    have hhcg := C2List.get_get2_foldl_count
      (fun p : behavior_digital_twin.Feature × behavior_digital_twin.Feature =>
        p.2.ts.hour)
      (fun p : behavior_digital_twin.Feature × behavior_digital_twin.Feature =>
        p.2.cluster)
      (features.zip features.tail) [] lastF.ts.hour c
    rw [htrg, hcntg, hhcg]
    have hpaircong : (features.zip features.tail).countP
        (fun p => decide ((p.1.cluster, p.2.cluster) = (lastF.cluster, c)))
        = (features.zip features.tail).countP
          (fun p => decide (p.1.cluster = lastF.cluster)
            && decide (p.2.cluster = c)) := by
      apply List.countP_congr
      intro p _
      simp [Prod.ext_iff]
    unfold time_series_forecasting.spec_medium_blend
    rw [hlastD]
    dsimp only
    rw [hpaircong]
    have h0 : CList.get ([] : CList ℤ) c = 0 := rfl
    have h02 : CList.get (C2List.get2 ([] : C2List Nat ℤ) lastF.ts.hour) c = 0 := rfl
    have h0p : CList.get ([] : CList (ℤ × ℤ)) (lastF.cluster, c) = 0 := rfl
    rw [h0, h02, h0p]
    ring
  · rw [hT, CList.total_divAll]
    field_simp

/-- C5 (counterexample to the claim as stated): on four observations at
hours 10, 11, 12, 11 with clusters 0, 1, 2, 0, no normalization
constant `T` makes the baseline distribution proportional to the blend
taken at the "upcoming" hour 12 (= hour after the last observation):
the code blends the hour-of-day frequencies of hour 11, the hour OF the
last observation. -/
theorem claim_C5_counterexample :
    ¬ ∃ T : ℚ,
      ∀ c : ℤ,
        CList.get (time_series_forecasting._rolling_probability_baseline
            [⟨⟨10, 0, 0⟩, 0, 0, 0, 0⟩, ⟨⟨11, 0, 3600⟩, 1, 0, 0, 0⟩,
              ⟨⟨12, 0, 7200⟩, 2, 0, 0, 0⟩, ⟨⟨11, 0, 10800⟩, 0, 0, 0, 0⟩]).distribution c
          = time_series_forecasting.spec_medium_blend
              [⟨⟨10, 0, 0⟩, 0, 0, 0, 0⟩, ⟨⟨11, 0, 3600⟩, 1, 0, 0, 0⟩,
                ⟨⟨12, 0, 7200⟩, 2, 0, 0, 0⟩, ⟨⟨11, 0, 10800⟩, 0, 0, 0, 0⟩]
              (((([⟨⟨10, 0, 0⟩, 0, 0, 0, 0⟩, ⟨⟨11, 0, 3600⟩, 1, 0, 0, 0⟩,
                  ⟨⟨12, 0, 7200⟩, 2, 0, 0, 0⟩, ⟨⟨11, 0, 10800⟩, 0, 0, 0, 0⟩]
                  : List behavior_digital_twin.Feature).getLastD default).ts.hour) + 1) c
              / T := by
  rintro ⟨T, hT⟩
  have hd1 : CList.get (time_series_forecasting._rolling_probability_baseline
      [⟨⟨10, 0, 0⟩, 0, 0, 0, 0⟩, ⟨⟨11, 0, 3600⟩, 1, 0, 0, 0⟩,
        ⟨⟨12, 0, 7200⟩, 2, 0, 0, 0⟩, ⟨⟨11, 0, 10800⟩, 0, 0, 0, 0⟩]).distribution 1
      = 7/11 := by
    rw [bl_eq [⟨⟨10, 0, 0⟩, 0, 0, 0, 0⟩, ⟨⟨11, 0, 3600⟩, 1, 0, 0, 0⟩,
        ⟨⟨12, 0, 7200⟩, 2, 0, 0, 0⟩, ⟨⟨11, 0, 10800⟩, 0, 0, 0, 0⟩]
      ⟨⟨11, 0, 10800⟩, 0, 0, 0, 0⟩ rfl]
    norm_num [time_series_forecasting.bl_hour, time_series_forecasting.bl_overall,
      time_series_forecasting.bl_cond, CList.add, CList.get, CList.total,
      CList.divAll, C2List.add2, C2List.get2, List.cons_ne_nil]
  have hd2 : CList.get (time_series_forecasting._rolling_probability_baseline
      [⟨⟨10, 0, 0⟩, 0, 0, 0, 0⟩, ⟨⟨11, 0, 3600⟩, 1, 0, 0, 0⟩,
        ⟨⟨12, 0, 7200⟩, 2, 0, 0, 0⟩, ⟨⟨11, 0, 10800⟩, 0, 0, 0, 0⟩]).distribution 2
      = 1/11 := by
    rw [bl_eq [⟨⟨10, 0, 0⟩, 0, 0, 0, 0⟩, ⟨⟨11, 0, 3600⟩, 1, 0, 0, 0⟩,
        ⟨⟨12, 0, 7200⟩, 2, 0, 0, 0⟩, ⟨⟨11, 0, 10800⟩, 0, 0, 0, 0⟩]
      ⟨⟨11, 0, 10800⟩, 0, 0, 0, 0⟩ rfl]
    norm_num [time_series_forecasting.bl_hour, time_series_forecasting.bl_overall,
      time_series_forecasting.bl_cond, CList.add, CList.get, CList.total,
      CList.divAll, C2List.add2, C2List.get2, List.cons_ne_nil]
  have hb1 : time_series_forecasting.spec_medium_blend
      [⟨⟨10, 0, 0⟩, 0, 0, 0, 0⟩, ⟨⟨11, 0, 3600⟩, 1, 0, 0, 0⟩,
        ⟨⟨12, 0, 7200⟩, 2, 0, 0, 0⟩, ⟨⟨11, 0, 10800⟩, 0, 0, 0, 0⟩]
      (((([⟨⟨10, 0, 0⟩, 0, 0, 0, 0⟩, ⟨⟨11, 0, 3600⟩, 1, 0, 0, 0⟩,
          ⟨⟨12, 0, 7200⟩, 2, 0, 0, 0⟩, ⟨⟨11, 0, 10800⟩, 0, 0, 0, 0⟩]
          : List behavior_digital_twin.Feature).getLastD default).ts.hour) + 1) 1
      = 5/4 := by
    norm_num [time_series_forecasting.spec_medium_blend, List.getLastD]
  have hb2 : time_series_forecasting.spec_medium_blend
      [⟨⟨10, 0, 0⟩, 0, 0, 0, 0⟩, ⟨⟨11, 0, 3600⟩, 1, 0, 0, 0⟩,
        ⟨⟨12, 0, 7200⟩, 2, 0, 0, 0⟩, ⟨⟨11, 0, 10800⟩, 0, 0, 0, 0⟩]
      (((([⟨⟨10, 0, 0⟩, 0, 0, 0, 0⟩, ⟨⟨11, 0, 3600⟩, 1, 0, 0, 0⟩,
          ⟨⟨12, 0, 7200⟩, 2, 0, 0, 0⟩, ⟨⟨11, 0, 10800⟩, 0, 0, 0, 0⟩]
          : List behavior_digital_twin.Feature).getLastD default).ts.hour) + 1) 2
      = 3/4 := by
    norm_num [time_series_forecasting.spec_medium_blend, List.getLastD]
  have h1 := hT 1
  have h2 := hT 2
  rw [hd1, hb1] at h1
  rw [hd2, hb2] at h2
  have hTne : T ≠ 0 := by
    intro h0
    rw [h0] at h2
    norm_num at h2
  rw [eq_div_iff hTne] at h1 h2
  nlinarith [h1, h2]

/-- Witness for C5 at the same concrete four-observation batch. -/
theorem claim_C5_witness :
    ∃ T : ℚ, 0 < T ∧
      (∀ c : ℤ,
        CList.get (time_series_forecasting._rolling_probability_baseline
            [⟨⟨10, 0, 0⟩, 0, 0, 0, 0⟩, ⟨⟨11, 0, 3600⟩, 1, 0, 0, 0⟩,
              ⟨⟨12, 0, 7200⟩, 2, 0, 0, 0⟩,
              ⟨⟨11, 0, 10800⟩, 0, 0, 0, 0⟩]).distribution c
          = time_series_forecasting.spec_medium_blend
              [⟨⟨10, 0, 0⟩, 0, 0, 0, 0⟩, ⟨⟨11, 0, 3600⟩, 1, 0, 0, 0⟩,
                ⟨⟨12, 0, 7200⟩, 2, 0, 0, 0⟩, ⟨⟨11, 0, 10800⟩, 0, 0, 0, 0⟩]
              ((([⟨⟨10, 0, 0⟩, 0, 0, 0, 0⟩, ⟨⟨11, 0, 3600⟩, 1, 0, 0, 0⟩,
                  ⟨⟨12, 0, 7200⟩, 2, 0, 0, 0⟩, ⟨⟨11, 0, 10800⟩, 0, 0, 0, 0⟩]
                  : List behavior_digital_twin.Feature).getLastD default).ts.hour) c / T) ∧
      CList.total (time_series_forecasting._rolling_probability_baseline
          [⟨⟨10, 0, 0⟩, 0, 0, 0, 0⟩, ⟨⟨11, 0, 3600⟩, 1, 0, 0, 0⟩,
            ⟨⟨12, 0, 7200⟩, 2, 0, 0, 0⟩,
            ⟨⟨11, 0, 10800⟩, 0, 0, 0, 0⟩]).distribution = 1 :=
  claim_C5 _ (by norm_num)

/-- C1 (refuting the claim): the noise label `-1` IS treated as a valid
destination by the forecast math.  On a batch with a single observation
at hour 10 carrying the noise label `-1`, `_hourly_cluster_distribution`
records the `-1` count, and the hour-of-day prior blend of
`_short_term_forecast` (fed the pipeline's own transition matrix and
hourly distribution) assigns ALL probability mass to the key
`cluster -1` and even predicts it as next state, while the spec says
`-1` "must never be treated as a valid destination in
transition/forecast math". -/
theorem claim_C1 :
    (behavior_digital_twin._short_term_forecast
        [⟨⟨10, 0, 0⟩, -1, 0, 0, 0⟩]
        (behavior_digital_twin._transition_matrix [-1]).1
        (behavior_digital_twin._hourly_cluster_distribution
          [⟨⟨10, 0, 0⟩, -1, 0, 0, 0⟩])).predicted_cluster
      = some (behavior_digital_twin.SKey.cluster (-1))
    ∧ CList.get (behavior_digital_twin._short_term_forecast
        [⟨⟨10, 0, 0⟩, -1, 0, 0, 0⟩]
        (behavior_digital_twin._transition_matrix [-1]).1
        (behavior_digital_twin._hourly_cluster_distribution
          [⟨⟨10, 0, 0⟩, -1, 0, 0, 0⟩])).distribution
        (behavior_digital_twin.SKey.cluster (-1)) = 1 := by
  rw [st_eq [⟨⟨10, 0, 0⟩, -1, 0, 0, 0⟩] _ _ ⟨⟨10, 0, 0⟩, -1, 0, 0, 0⟩ rfl]
  norm_num [behavior_digital_twin._transition_matrix,
    behavior_digital_twin._hourly_cluster_distribution,
    behavior_digital_twin.st_bias, behavior_digital_twin.st_hour_blend,
    behavior_digital_twin.st_markov, C2List.add2, C2List.get2,
    CList.add, CList.get, CList.total, CList.divAll, CList.argmax?,
    CList.best, List.cons_ne_nil]

/-- C10: for every entry whose timestamp field is a datetime or an
ISO-format string (`ts ≠ PyTs.other`), `update_state_with_entry` never
raises: (i) it returns `.ok` whatever the fallible externals do (read
failure, parse failure, write failure); (ii) a failed read of the
persisted state behaves exactly like reading the default reset state
`{"events": 0, "hourly_productivity": {}, "last_mode": None}`; (iii) an
unparseable timestamp string behaves exactly like a timestamp of
`datetime.now()`; a failed write is swallowed, only the returned
"reached disk" flag reports it. -/
theorem claim_C10 (readState : Except Unit behavior_digital_twin.TwinState)
    (parseIso : String → Except Unit behavior_model.DT)
    (now : behavior_model.DT) (writeOk : Bool)
    (entry : behavior_model.Activity)
    (hts : entry.ts ≠ behavior_model.PyTs.other) :
    (∃ st, behavior_digital_twin.update_state_with_entry readState parseIso now
        writeOk entry = Except.ok (st, writeOk))
    ∧ behavior_digital_twin.update_state_with_entry (Except.error ()) parseIso
        now writeOk entry
      = behavior_digital_twin.update_state_with_entry
          (Except.ok behavior_digital_twin.defaultTwinState) parseIso now
          writeOk entry
    ∧ (∀ s, entry.ts = behavior_model.PyTs.str s →
        parseIso s = Except.error () →
        behavior_digital_twin.update_state_with_entry readState parseIso now
            writeOk entry
          = behavior_digital_twin.update_state_with_entry readState parseIso
              now writeOk
              { entry with ts := behavior_model.PyTs.dt now }) := by
  refine ⟨?_, rfl, ?_⟩
  · cases h : entry.ts with
    | dt d =>
      unfold behavior_digital_twin.update_state_with_entry
      rw [h]
      exact ⟨_, rfl⟩
    | str s =>
      unfold behavior_digital_twin.update_state_with_entry
      rw [h]
      exact ⟨_, rfl⟩
    | other => exact absurd h hts
  · intro s hs hp
    unfold behavior_digital_twin.update_state_with_entry
    rw [hs]
    dsimp only
    rw [hp]
    rfl

/-- Witness for C10 at a concrete observation whose `ts` is an
unparseable string, with a failing state read, a failing ISO parse and a
failing state write. -/
theorem claim_C10_witness :
    ((⟨none, none, none, [], some "coding",
        behavior_model.PyTs.str "not-a-timestamp", none, 0⟩
      : behavior_model.Activity).ts ≠ behavior_model.PyTs.other)
    ∧ ((∃ st, behavior_digital_twin.update_state_with_entry (Except.error ())
          (fun _ => Except.error ()) ⟨10, 0, 0⟩ false
          ⟨none, none, none, [], some "coding",
            behavior_model.PyTs.str "not-a-timestamp", none, 0⟩
        = Except.ok (st, false))
      ∧ behavior_digital_twin.update_state_with_entry (Except.error ())
          (fun _ => Except.error ()) ⟨10, 0, 0⟩ false
          ⟨none, none, none, [], some "coding",
            behavior_model.PyTs.str "not-a-timestamp", none, 0⟩
        = behavior_digital_twin.update_state_with_entry
            (Except.ok behavior_digital_twin.defaultTwinState)
            (fun _ => Except.error ()) ⟨10, 0, 0⟩ false
            ⟨none, none, none, [], some "coding",
              behavior_model.PyTs.str "not-a-timestamp", none, 0⟩
      ∧ (∀ s, (⟨none, none, none, [], some "coding",
            behavior_model.PyTs.str "not-a-timestamp", none, 0⟩
            : behavior_model.Activity).ts = behavior_model.PyTs.str s →
          (fun _ => (Except.error () : Except Unit behavior_model.DT)) s
            = Except.error () →
          behavior_digital_twin.update_state_with_entry (Except.error ())
              (fun _ => Except.error ()) ⟨10, 0, 0⟩ false
              ⟨none, none, none, [], some "coding",
                behavior_model.PyTs.str "not-a-timestamp", none, 0⟩
            = behavior_digital_twin.update_state_with_entry (Except.error ())
                (fun _ => Except.error ()) ⟨10, 0, 0⟩ false
                { (⟨none, none, none, [], some "coding",
                    behavior_model.PyTs.str "not-a-timestamp", none, 0⟩
                  : behavior_model.Activity) with
                  ts := behavior_model.PyTs.dt ⟨10, 0, 0⟩ })) :=
  ⟨by decide, claim_C10 _ _ _ _ _ (by decide)⟩

end SelfObserver
